import Mathlib

/-!
Verification of the Mario Kart leaderboard match-lifecycle and rating core.

The Rust services under `src/backend/src/services` are shallowly embedded:
pure functions become Lean functions (machine `i32` arithmetic stays inside
small ranges, so `ℤ` is used; `f64` computations that only round exact small
rationals are modelled over `ℝ`/`ℚ`), and the database-transaction
orchestrators become explicit state-passing functions on a record of table
contents together with an `Except` error channel.
-/

namespace MarioKart

/-! ## Rounding

Rust's `f64::round` rounds half away from zero. -/

noncomputable def rustRound (x : ℝ) : ℤ :=
  if 0 ≤ x then ⌊x + 1 / 2⌋ else -⌊-x + 1 / 2⌋

def rustRoundQ (q : ℚ) : ℤ :=
  if 0 ≤ q then ⌊q + 1 / 2⌋ else -⌊-q + 1 / 2⌋

/-! ## Elo rating engine (`services/elo.rs`)

Player ids model `Uuid`; `0` stands for `Uuid::nil()`, the id given to every
CPU filler entry. -/

def K_FACTOR : ℝ := 100

def TOTAL_RACE_SIZE : ℕ := 24

def MAX_CPU_ELO : ℤ := 1400

def MIN_CPU_ELO : ℤ := 600

def CPU_ELO_DECREASE : ℤ := 100

structure PlayerResult where
  player_id : ℕ
  position : ℤ
  current_elo : ℤ
deriving DecidableEq, Repr

structure EloChange where
  player_id : ℕ
  elo_change : ℤ
  new_elo : ℤ
deriving DecidableEq, Repr, Inhabited

/-- The CPU rating used for an unoccupied slot:
`max(MIN_CPU_ELO, MAX_CPU_ELO - ((position - 1) * CPU_ELO_DECREASE))`. -/
def cpuElo (position : ℤ) : ℤ :=
  max MIN_CPU_ELO (MAX_CPU_ELO - (position - 1) * CPU_ELO_DECREASE)

/-- The positions `1..=24` iterated by the CPU fill loop
(`for position in 1..=TOTAL_RACE_SIZE`). -/
def slotList : List ℤ := (List.range TOTAL_RACE_SIZE).map (fun (i : ℕ) => (i : ℤ) + 1)

/-- `create_full_field`: the human results followed by one CPU entry for every
position in `1..=24` not occupied by a human. -/
def create_full_field (human_results : List PlayerResult) : List PlayerResult :=
  human_results ++
    ((slotList.filter
        (fun p => decide (p ∉ human_results.map (·.position)))).map
      (fun p => ⟨0, p, cpuElo p⟩))

/-- The logistic pairwise win probability of `player` against `other`:
`1 / (1 + 10^((other_elo - player_elo) / 400))`. -/
noncomputable def pairwiseWinProb (player other : PlayerResult) : ℝ :=
  1 / (1 + (10 : ℝ) ^ ((((other.current_elo - player.current_elo : ℤ) : ℝ)) / 400))

/-- `calculate_expected_score`: mean of the pairwise win probabilities over all
field entries whose id differs from the player's, divided by
`all_results.len() - 1` (saturating); `0.5` if there are no opponents. -/
noncomputable def calculate_expected_score (player : PlayerResult)
    (all_results : List PlayerResult) : ℝ :=
  let opponent_count := all_results.length - 1
  if opponent_count = 0 then 0.5
  else
    ((all_results.filter (fun other => other.player_id ≠ player.player_id)).map
        (fun other => pairwiseWinProb player other)).sum / (opponent_count : ℝ)

/-- `position_to_score`: maps position `1..24` linearly onto `1.0..0.0`. -/
noncomputable def position_to_score (position : ℤ) : ℝ :=
  if TOTAL_RACE_SIZE ≤ 1 then 0.5
  else (((TOTAL_RACE_SIZE : ℤ) - position : ℤ) : ℝ) / ((TOTAL_RACE_SIZE - 1 : ℕ) : ℝ)

/-- `calculate_elo_changes`: one `EloChange` per human result, with
`elo_change = round(K * (actual - expected))` and `new_elo = current + change`. -/
noncomputable def calculate_elo_changes (results : List PlayerResult) : List EloChange :=
  let full_field := create_full_field results
  results.map (fun player =>
    let expected_score := calculate_expected_score player full_field
    let actual_score := position_to_score player.position
    let elo_change := rustRound (K_FACTOR * (actual_score - expected_score))
    { player_id := player.player_id
      elo_change := elo_change
      new_elo := player.current_elo + elo_change })

/-- Reference expected score, following the specification text: the mean, over
every *other* entry of the full field, of the logistic pairwise win
probability. "Other" entries are the field with one occurrence of the player's
own entry removed. -/
noncomputable def specExpectedScore (player : PlayerResult)
    (field : List PlayerResult) : ℝ :=
  (((field.erase player).map (fun other => pairwiseWinProb player other)).sum) /
    ((field.erase player).length : ℝ)

/-- Reference rating changes, following the specification text: actual score is
`(24 - position) / 23`, delta is `round(100 * (actual - expected))` with the
expected score taken as the mean over the other 23 entries of the 24-slot
synthetic field. -/
noncomputable def specEloChanges (results : List PlayerResult) : List EloChange :=
  let field := create_full_field results
  results.map (fun player =>
    let expected := specExpectedScore player field
    let actual := ((24 : ℝ) - (player.position : ℝ)) / 23
    let delta := rustRound (100 * (actual - expected))
    { player_id := player.player_id
      elo_change := delta
      new_elo := player.current_elo + delta })

/-! ### Supporting lemmas for the rating engine -/

lemma countP_mem_of_subset {A B : List ℤ} (hA : A.Nodup) (hB : B.Nodup)
    (hsub : ∀ a ∈ A, a ∈ B) :
    (B.filter (fun x => decide (x ∈ A))).length = A.length := by
  have hnd : (B.filter (fun x => decide (x ∈ A))).Nodup := hB.filter _
  have h2 : (B.filter (fun x => decide (x ∈ A))).toFinset = A.toFinset := by
    ext x
    simp only [List.toFinset_filter, Finset.mem_filter, List.mem_toFinset, decide_eq_true_eq]
    constructor
    · rintro ⟨_, hx⟩; exact hx
    · intro hx; exact ⟨hsub x hx, hx⟩
  calc (B.filter (fun x => decide (x ∈ A))).length
      = (B.filter (fun x => decide (x ∈ A))).toFinset.card :=
        (List.toFinset_card_of_nodup hnd).symm
    _ = A.toFinset.card := by rw [h2]
    _ = A.length := List.toFinset_card_of_nodup hA

lemma length_filter_add_length_filter_not (l : List ℤ) (p : ℤ → Prop) [DecidablePred p] :
    (l.filter (fun x => decide (p x))).length
      + (l.filter (fun x => decide (¬ p x))).length = l.length := by
  induction l with
  | nil => simp
  | cons a t ih =>
    by_cases h : p a <;> simp [List.filter_cons, h, decide_not] at ih ⊢ <;> omega

lemma slotList_nodup : slotList.Nodup := by
  refine List.Nodup.map ?_ (List.nodup_range _)
  intro a b h
  simpa using h

lemma mem_slotList {q : ℤ} : q ∈ slotList ↔ 1 ≤ q ∧ q ≤ 24 := by
  simp only [slotList, List.mem_map, List.mem_range, TOTAL_RACE_SIZE]
  constructor
  · rintro ⟨i, hi, rfl⟩; omega
  · rintro ⟨h1, h2⟩
    exact ⟨(q - 1).toNat, by omega, by omega⟩

lemma slotList_length : slotList.length = 24 := by
  simp [slotList, TOTAL_RACE_SIZE]

lemma create_full_field_length {results : List PlayerResult}
    (hnd : (results.map (·.position)).Nodup)
    (hrange : ∀ r ∈ results, 1 ≤ r.position ∧ r.position ≤ 24) :
    (create_full_field results).length = 24 := by
  classical
  simp only [create_full_field, List.length_append, List.length_map]
  set P := results.map (·.position) with hP
  have hsub : ∀ a ∈ P, a ∈ slotList := by
    intro a ha
    rcases List.mem_map.mp ha with ⟨r, hr, rfl⟩
    exact mem_slotList.mpr (hrange r hr)
  have hin : (slotList.filter (fun x => decide (x ∈ P))).length = P.length :=
    countP_mem_of_subset hnd slotList_nodup hsub
  have hsplit := length_filter_add_length_filter_not slotList (fun x => x ∈ P)
  have hslot := slotList_length
  have hPlen : P.length = results.length := by simp [hP]
  omega

lemma filter_ne_eq_erase (p : PlayerResult) :
    ∀ (l : List PlayerResult),
      (∀ e ∈ l, e.player_id = p.player_id → e = p) →
      l.countP (fun e => e.player_id = p.player_id) ≤ 1 →
      l.filter (fun o => o.player_id ≠ p.player_id) = l.erase p := by
  intro l
  induction l with
  | nil => intro _ _; rfl
  | cons h t ih =>
    intro Hid Hcnt
    by_cases hh : h.player_id = p.player_id
    · have hp : h = p := Hid h (List.mem_cons_self _ _) hh
      have ht0 : t.countP (fun e => decide (e.player_id = p.player_id)) = 0 := by
        rw [List.countP_cons_of_pos] at Hcnt
        · omega
        · simpa using hh
      have hall : ∀ e ∈ t, e.player_id ≠ p.player_id := by
        intro e he
        have := List.countP_eq_zero.mp ht0 e he
        simpa using this
      rw [List.filter_cons_of_neg (by simpa using hh)]
      rw [hp, List.erase_cons_head]
      exact List.filter_eq_self.mpr (fun e he => by simpa using hall e he)
    · have hne : (h == p) = false := by
        apply beq_false_of_ne
        intro hcontra
        exact hh (by rw [hcontra])
      rw [List.filter_cons_of_pos (by simpa using hh), List.erase_cons_tail (by simp [hne])]
      congr 1
      refine ih ?_ ?_
      · intro e he hid; exact Hid e (List.mem_cons_of_mem _ he) hid
      · rw [List.countP_cons_of_neg] at Hcnt
        · exact Hcnt
        · simpa using hh

lemma field_id_unique {results : List PlayerResult} {p : PlayerResult}
    (hid : (results.map (·.player_id)).Nodup)
    (h0 : ∀ r ∈ results, r.player_id ≠ 0) (hp : p ∈ results) :
    (∀ e ∈ create_full_field results, e.player_id = p.player_id → e = p) ∧
    (create_full_field results).countP (fun e => e.player_id = p.player_id) ≤ 1 := by
  constructor
  · intro e he heq
    rcases List.mem_append.mp he with h1 | h1
    · exact List.inj_on_of_nodup_map hid h1 hp heq
    · rcases List.mem_map.mp h1 with ⟨q, _, rfl⟩
      exact absurd heq.symm (h0 p hp)
  · rw [create_full_field, List.countP_append]
    have hcpu : ((slotList.filter
        (fun q => decide (q ∉ results.map (·.position)))).map
          (fun q => (⟨0, q, cpuElo q⟩ : PlayerResult))).countP
        (fun e => e.player_id = p.player_id) = 0 := by
      apply List.countP_eq_zero.mpr
      intro e he
      rcases List.mem_map.mp he with ⟨q, _, rfl⟩
      simpa using (h0 p hp ∘ Eq.symm)
    have hres : results.countP (fun e => e.player_id = p.player_id) ≤ 1 := by
      have h1 : (results.map (·.player_id)).count p.player_id
          = results.countP (fun e => e.player_id = p.player_id) := by
        rw [List.count, List.countP_map]
        rfl
      have h2 := List.nodup_iff_count_le_one.mp hid p.player_id
      omega
    omega

lemma self_mem_full_field {results : List PlayerResult} {p : PlayerResult}
    (hp : p ∈ results) : p ∈ create_full_field results :=
  List.mem_append.mpr (Or.inl hp)

lemma pairwiseWinProb_self (p : PlayerResult) : pairwiseWinProb p p = 1 / 2 := by
  simp [pairwiseWinProb]
  norm_num

lemma pairwiseWinProb_nonneg (p o : PlayerResult) : 0 ≤ pairwiseWinProb p o := by
  have h : (0 : ℝ) < (10 : ℝ) ^ ((((o.current_elo - p.current_elo : ℤ) : ℝ)) / 400) :=
    Real.rpow_pos_of_pos (by norm_num) _
  rw [pairwiseWinProb]
  positivity

lemma pairwiseWinProb_le_one (p o : PlayerResult) : pairwiseWinProb p o ≤ 1 := by
  have h : (0 : ℝ) < (10 : ℝ) ^ ((((o.current_elo - p.current_elo : ℤ) : ℝ)) / 400) :=
    Real.rpow_pos_of_pos (by norm_num) _
  rw [pairwiseWinProb, div_le_one (by linarith)]
  linarith

/-- On a field whose entries carry the player's id exactly once (with that
entry being the player), the implemented expected score coincides with the
specification's: the mean over the other entries. -/
lemma expected_score_eq_spec {results : List PlayerResult} {p : PlayerResult}
    (hnd : (results.map (·.position)).Nodup)
    (hrange : ∀ r ∈ results, 1 ≤ r.position ∧ r.position ≤ 24)
    (hid : (results.map (·.player_id)).Nodup)
    (h0 : ∀ r ∈ results, r.player_id ≠ 0) (hp : p ∈ results) :
    calculate_expected_score p (create_full_field results)
      = specExpectedScore p (create_full_field results) := by
  have hlen : (create_full_field results).length = 24 :=
    create_full_field_length hnd hrange
  obtain ⟨hu, hc⟩ := field_id_unique hid h0 hp
  have hfe : (create_full_field results).filter (fun o => o.player_id ≠ p.player_id)
      = (create_full_field results).erase p :=
    filter_ne_eq_erase p _ hu hc
  have hmem : p ∈ create_full_field results := self_mem_full_field hp
  have helen : ((create_full_field results).erase p).length = 23 := by
    rw [List.length_erase_of_mem hmem, hlen]
  rw [calculate_expected_score, specExpectedScore]
  simp only [hlen, hfe, helen]
  norm_num

lemma list_sum_le_length {l : List ℝ} (h : ∀ x ∈ l, x ≤ 1) : l.sum ≤ l.length := by
  have := List.sum_le_card_nsmul l 1 h
  simpa using this

lemma length_filter_lt_of_mem_not {α : Type} (q : α → Prop) [DecidablePred q] (a : α) :
    ∀ (l : List α), a ∈ l → ¬ q a →
      (l.filter (fun x => decide (q x))).length < l.length := by
  intro l
  induction l with
  | nil => intro h; cases h
  | cons h t ih =>
    intro hmem hq
    rcases List.mem_cons.mp hmem with rfl | hmem'
    · rw [List.filter_cons_of_neg (by simpa using hq)]
      have := List.length_filter_le (fun x => decide (q x)) t
      simp only [List.length_cons]
      omega
    · by_cases hqh : q h
      · rw [List.filter_cons_of_pos (by simpa using hqh)]
        have := ih hmem' hq
        simp only [List.length_cons]
        omega
      · rw [List.filter_cons_of_neg (by simpa using hqh)]
        have := ih hmem' hq
        simp only [List.length_cons]
        omega

/-- The implemented expected score always lies in `[0, 1]` as soon as the
player's own entry occurs in the field. -/
lemma expected_score_mem_unit {l : List PlayerResult} {p : PlayerResult}
    (hp : p ∈ l) :
    0 ≤ calculate_expected_score p l ∧ calculate_expected_score p l ≤ 1 := by
  rw [calculate_expected_score]
  by_cases h : l.length - 1 = 0
  · rw [if_pos h]
    norm_num
  · rw [if_neg h]
    have hflt : (l.filter (fun o => o.player_id ≠ p.player_id)).length < l.length :=
      length_filter_lt_of_mem_not (fun o => o.player_id ≠ p.player_id) p l hp
        (by simp)
    have hsum0 : 0 ≤ ((l.filter (fun o => o.player_id ≠ p.player_id)).map
        (fun o => pairwiseWinProb p o)).sum := by
      apply List.sum_nonneg
      intro x hx
      rcases List.mem_map.mp hx with ⟨o, _, rfl⟩
      exact pairwiseWinProb_nonneg p o
    have hsum1 : ((l.filter (fun o => o.player_id ≠ p.player_id)).map
        (fun o => pairwiseWinProb p o)).sum
        ≤ ((l.filter (fun o => o.player_id ≠ p.player_id)).map
          (fun o => pairwiseWinProb p o)).length := by
      apply list_sum_le_length
      intro x hx
      rcases List.mem_map.mp hx with ⟨o, _, rfl⟩
      exact pairwiseWinProb_le_one p o
    have hnpos : (0 : ℝ) < ((l.length - 1 : ℕ) : ℝ) := by
      have : 0 < l.length - 1 := Nat.pos_of_ne_zero h
      exact_mod_cast this
    constructor
    · exact div_nonneg hsum0 (le_of_lt hnpos)
    · rw [div_le_one hnpos]
      calc ((l.filter (fun o => o.player_id ≠ p.player_id)).map
            (fun o => pairwiseWinProb p o)).sum
          ≤ _ := hsum1
        _ ≤ ((l.length - 1 : ℕ) : ℝ) := by
            rw [List.length_map]
            have : (l.filter (fun o => o.player_id ≠ p.player_id)).length
                ≤ l.length - 1 := by omega
            exact_mod_cast this

lemma position_to_score_eq (q : ℤ) :
    position_to_score q = ((24 : ℝ) - (q : ℝ)) / 23 := by
  rw [position_to_score]
  norm_num [TOTAL_RACE_SIZE]

lemma position_to_score_mem_unit {q : ℤ} (h1 : 1 ≤ q) (h2 : q ≤ 24) :
    0 ≤ position_to_score q ∧ position_to_score q ≤ 1 := by
  rw [position_to_score_eq]
  have hq1 : (1 : ℝ) ≤ (q : ℝ) := by exact_mod_cast h1
  have hq2 : (q : ℝ) ≤ 24 := by exact_mod_cast h2
  constructor
  · apply div_nonneg (by linarith) (by norm_num)
  · rw [div_le_one (by norm_num)]
    linarith

lemma rustRound_bounds {y : ℝ} (h1 : -100 ≤ y) (h2 : y ≤ 100) :
    -100 ≤ rustRound y ∧ rustRound y ≤ 100 := by
  rw [rustRound]
  split
  · rename_i hy
    constructor
    · have : (0 : ℤ) ≤ ⌊y + 1 / 2⌋ := Int.le_floor.mpr (by push_cast; linarith)
      omega
    · have hle : ⌊y + 1 / 2⌋ ≤ ⌊(201 : ℝ) / 2⌋ := Int.floor_le_floor (by linarith)
      have : ⌊(201 : ℝ) / 2⌋ = 100 := by
        apply Int.floor_eq_iff.mpr
        constructor <;> norm_num
      omega
  · rename_i hy
    push_neg at hy
    constructor
    · have hle : ⌊-y + 1 / 2⌋ ≤ ⌊(201 : ℝ) / 2⌋ := Int.floor_le_floor (by linarith)
      have : ⌊(201 : ℝ) / 2⌋ = 100 := by
        apply Int.floor_eq_iff.mpr
        constructor <;> norm_num
      omega
    · have : (0 : ℤ) ≤ ⌊-y + 1 / 2⌋ := Int.le_floor.mpr (by push_cast; linarith)
      omega

lemma headI_mem {α : Type} [Inhabited α] {l : List α} (h : l ≠ []) : l.headI ∈ l := by
  cases l with
  | nil => exact absurd rfl h
  | cons a t => exact List.mem_cons_self _ _

/-- **C3.** On any list of human results with pairwise-distinct positions in
`1..24` (distinct non-CPU player ids), `calculate_elo_changes` agrees with the
reference algorithm of the specification: the synthetic field has exactly 24
entries; CPU entries are rated `max(600, 1400 - 100*(position-1))`, hence
monotonically non-increasing by position; and each player's change is
`round(100 * ((24 - position)/23 - mean over the other 23 field entries of the
logistic win probability))`, added to the current rating.  The function is a
pure Lean function, hence deterministic. -/
theorem calculate_elo_changes_correct
    (results : List PlayerResult)
    (hnd : (results.map (·.position)).Nodup)
    (hrange : ∀ r ∈ results, 1 ≤ r.position ∧ r.position ≤ 24)
    (hid : (results.map (·.player_id)).Nodup)
    (h0 : ∀ r ∈ results, r.player_id ≠ 0) :
    (create_full_field results).length = 24 ∧
    (∀ e₁ ∈ create_full_field results, ∀ e₂ ∈ create_full_field results,
      e₁.player_id = 0 → e₂.player_id = 0 → e₁.position ≤ e₂.position →
      e₂.current_elo ≤ e₁.current_elo) ∧
    calculate_elo_changes results = specEloChanges results := by
  refine ⟨create_full_field_length hnd hrange, ?_, ?_⟩
  · have hcpu : ∀ e ∈ create_full_field results, e.player_id = 0 →
        e.current_elo = cpuElo e.position := by
      intro e he h0e
      rcases List.mem_append.mp he with h1 | h1
      · exact absurd h0e (h0 e h1)
      · rcases List.mem_map.mp h1 with ⟨q, _, rfl⟩
        rfl
    intro e₁ h₁ e₂ h₂ hz₁ hz₂ hle
    rw [hcpu e₁ h₁ hz₁, hcpu e₂ h₂ hz₂]
    rw [cpuElo, cpuElo, MAX_CPU_ELO, MIN_CPU_ELO, CPU_ELO_DECREASE]
    rcases le_or_lt (1400 - (e₁.position - 1) * 100) 600 with h | h <;>
      rcases le_or_lt (1400 - (e₂.position - 1) * 100) 600 with h' | h' <;>
      simp [max_def] <;> omega
  · rw [calculate_elo_changes, specEloChanges]
    apply List.map_congr_left
    intro p hp
    have he := expected_score_eq_spec hnd hrange hid h0 hp
    have ha := position_to_score_eq p.position
    rw [K_FACTOR, he, ha]

/-- **C10.** If every submitted position lies in `1..24`, every rating change
produced by `calculate_elo_changes` has absolute value at most the K-factor
`100`: both the actual and the expected score lie in `[0, 1]`. -/
theorem elo_change_bounded
    (results : List PlayerResult)
    (hrange : ∀ r ∈ results, 1 ≤ r.position ∧ r.position ≤ 24) :
    ∀ c ∈ calculate_elo_changes results,
      -100 ≤ c.elo_change ∧ c.elo_change ≤ 100 := by
  intro c hc
  rw [calculate_elo_changes] at hc
  rcases List.mem_map.mp hc with ⟨p, hp, rfl⟩
  obtain ⟨he0, he1⟩ := expected_score_mem_unit (self_mem_full_field hp)
  obtain ⟨ha0, ha1⟩ := position_to_score_mem_unit (hrange p hp).1 (hrange p hp).2
  simp only
  rw [K_FACTOR]
  exact rustRound_bounds (by nlinarith) (by nlinarith)

/-- Witness for `calculate_elo_changes_correct` at a concrete two-player race. -/
theorem calculate_elo_changes_correct_witness :
    calculate_elo_changes [⟨1, 1, 1200⟩, ⟨2, 5, 1100⟩]
      = specEloChanges [⟨1, 1, 1200⟩, ⟨2, 5, 1100⟩] :=
  (calculate_elo_changes_correct [⟨1, 1, 1200⟩, ⟨2, 5, 1100⟩]
    (by decide) (by decide) (by decide) (by decide)).2.2

/-- Witness for `elo_change_bounded` at a concrete lone-human race. -/
theorem elo_change_bounded_witness :
    -100 ≤ ((calculate_elo_changes [⟨1, 1, 1200⟩]).headI).elo_change ∧
      ((calculate_elo_changes [⟨1, 1, 1200⟩]).headI).elo_change ≤ 100 :=
  elo_change_bounded [⟨1, 1, 1200⟩] (by decide) _
    (headI_mem (by simp [calculate_elo_changes]))

/-! ## Teammate contributions (`services/teammate_elo.rs`)

`HashMap`s become association lists with unique keys; `entry(..).or_insert(0)
+= amount` becomes `bumpAdj`. -/

structure TeammateContribution where
  source_player_id : ℕ
  beneficiary_player_id : ℕ
  source_tournament_elo_change : ℤ
  contribution_amount : ℤ
deriving DecidableEq, Repr

/-- `*map.entry(k).or_insert(0) += v` on an association list with unique
keys. -/
def bumpAdj : List (ℕ × ℤ) → ℕ → ℤ → List (ℕ × ℤ)
  | [], k, v => [(k, v)]
  | (k', w) :: rest, k, v =>
      if k' = k then (k', w + v) :: rest else (k', w) :: bumpAdj rest k v

/-- The inner loop of `calculate_teammate_contributions`: push one record per
listed teammate and accumulate that teammate's adjustment. -/
def addContributionsFor (source : ℕ) (change amount : ℤ)
    (teammates : List ℕ)
    (acc : List TeammateContribution × List (ℕ × ℤ)) :
    List TeammateContribution × List (ℕ × ℤ) :=
  teammates.foldl
    (fun acc2 t =>
      (acc2.1 ++ [⟨source, t, change, amount⟩], bumpAdj acc2.2 t amount))
    acc

/-- The body of the `for (source_player_id, _position) in results` loop. -/
def contributionStep (player_to_team : List (ℕ × ℕ))
    (team_to_players : List (ℕ × List ℕ))
    (tournament_elo_changes : List (ℕ × ℤ))
    (acc : List TeammateContribution × List (ℕ × ℤ)) (r : ℕ × ℤ) :
    List TeammateContribution × List (ℕ × ℤ) :=
  match player_to_team.lookup r.1 with
  | none => acc
  | some team_id =>
    match team_to_players.lookup team_id with
    | none => acc
    | some teammates =>
      match tournament_elo_changes.lookup r.1 with
      | none => acc
      | some change =>
        let amount := rustRoundQ ((change : ℚ) * 0.2)
        addContributionsFor r.1 change amount
          (teammates.filter (fun t => t ≠ r.1)) acc

/-- `calculate_teammate_contributions`: for each racing participant whose team
and tournament delta are known, a contribution of `round(0.2 * delta)` to each
other member of their team, plus the per-beneficiary aggregate adjustments. -/
def calculate_teammate_contributions
    (results : List (ℕ × ℤ))
    (player_to_team : List (ℕ × ℕ))
    (team_to_players : List (ℕ × List ℕ))
    (tournament_elo_changes : List (ℕ × ℤ)) :
    List TeammateContribution × List (ℕ × ℤ) :=
  results.foldl
    (contributionStep player_to_team team_to_players tournament_elo_changes)
    ([], [])

/-! ### Supporting lemmas for teammate contributions -/

/-- The records that the loop body generates for one participant. -/
def recordsFor (player_to_team : List (ℕ × ℕ))
    (team_to_players : List (ℕ × List ℕ))
    (tournament_elo_changes : List (ℕ × ℤ)) (r : ℕ × ℤ) :
    List TeammateContribution :=
  match player_to_team.lookup r.1 with
  | none => []
  | some team_id =>
    match team_to_players.lookup team_id with
    | none => []
    | some teammates =>
      match tournament_elo_changes.lookup r.1 with
      | none => []
      | some change =>
        (teammates.filter (fun t => t ≠ r.1)).map
          (fun t => ⟨r.1, t, change, rustRoundQ ((change : ℚ) * 0.2)⟩)

lemma addContributionsFor_fst (source : ℕ) (change amount : ℤ) :
    ∀ (ts : List ℕ) (acc : List TeammateContribution × List (ℕ × ℤ)),
      (addContributionsFor source change amount ts acc).1
        = acc.1 ++ ts.map (fun t => ⟨source, t, change, amount⟩) := by
  intro ts
  induction ts with
  | nil => intro acc; simp [addContributionsFor]
  | cons t ts ih =>
    intro acc
    rw [addContributionsFor, List.foldl_cons, ← addContributionsFor]
    rw [ih]
    simp

lemma contributionStep_fst (p2t : List (ℕ × ℕ)) (t2p : List (ℕ × List ℕ))
    (chg : List (ℕ × ℤ)) (acc : List TeammateContribution × List (ℕ × ℤ))
    (r : ℕ × ℤ) :
    (contributionStep p2t t2p chg acc r).1 = acc.1 ++ recordsFor p2t t2p chg r := by
  rw [contributionStep, recordsFor]
  rcases p2t.lookup r.1 with _ | team
  · simp
  · simp only []
    rcases t2p.lookup team with _ | ts
    · simp
    · simp only []
      rcases chg.lookup r.1 with _ | c
      · simp
      · simp only []
        simp [addContributionsFor_fst]

lemma contributions_fst_eq (p2t : List (ℕ × ℕ)) (t2p : List (ℕ × List ℕ))
    (chg : List (ℕ × ℤ)) :
    ∀ (results : List (ℕ × ℤ)) (acc : List TeammateContribution × List (ℕ × ℤ)),
      (results.foldl (contributionStep p2t t2p chg) acc).1
        = acc.1 ++ results.flatMap (recordsFor p2t t2p chg) := by
  intro results
  induction results with
  | nil => intro acc; simp
  | cons r rs ih =>
    intro acc
    rw [List.foldl_cons, ih, contributionStep_fst]
    simp

lemma lookup_bumpAdj_getD (k : ℕ) (v : ℤ) :
    ∀ (adj : List (ℕ × ℤ)) (b : ℕ),
      ((bumpAdj adj k v).lookup b).getD 0
        = (adj.lookup b).getD 0 + (if b = k then v else 0) := by
  intro adj
  induction adj with
  | nil =>
    intro b
    by_cases hb : b = k
    · simp [bumpAdj, List.lookup, hb]
    · simp [bumpAdj, List.lookup, hb, beq_false_of_ne hb]
  | cons p rest ih =>
    intro b
    obtain ⟨k', w⟩ := p
    by_cases hk : k' = k
    · subst hk
      by_cases hb : b = k'
      · subst hb
        simp [bumpAdj, List.lookup]
      · simp [bumpAdj, List.lookup, hb, beq_false_of_ne hb]
    · by_cases hb : b = k'
      · subst hb
        simp [bumpAdj, List.lookup, hk, Ne.symm hk]
      · simp [bumpAdj, List.lookup, hk, beq_false_of_ne hb, ih]

/-- The aggregate-adjustment invariant: the adjustment stored for each player
equals the sum of the accumulated contribution amounts naming that player as
beneficiary. -/
def AdjInv (acc : List TeammateContribution × List (ℕ × ℤ)) : Prop :=
  ∀ b : ℕ, ((acc.2.lookup b).getD 0)
    = ((acc.1.filter (fun c => c.beneficiary_player_id = b)).map
        (fun c => c.contribution_amount)).sum

lemma addContributionsFor_adjInv (source : ℕ) (change amount : ℤ) :
    ∀ (ts : List ℕ) (acc : List TeammateContribution × List (ℕ × ℤ)),
      AdjInv acc → AdjInv (addContributionsFor source change amount ts acc) := by
  intro ts
  induction ts with
  | nil => intro acc h; exact h
  | cons t ts ih =>
    intro acc h
    rw [addContributionsFor, List.foldl_cons, ← addContributionsFor]
    apply ih
    intro b
    rw [lookup_bumpAdj_getD, h b]
    by_cases hb : b = t
    · subst hb
      simp [List.filter_append]
    · have ht : ¬ (t = b) := fun hcontra => hb hcontra.symm
      simp [List.filter_append, hb, ht]

lemma contributionStep_adjInv (p2t : List (ℕ × ℕ)) (t2p : List (ℕ × List ℕ))
    (chg : List (ℕ × ℤ)) (acc : List TeammateContribution × List (ℕ × ℤ))
    (r : ℕ × ℤ) (h : AdjInv acc) :
    AdjInv (contributionStep p2t t2p chg acc r) := by
  rw [contributionStep]
  rcases p2t.lookup r.1 with _ | team
  · exact h
  · simp only []
    rcases t2p.lookup team with _ | ts
    · exact h
    · simp only []
      rcases chg.lookup r.1 with _ | c
      · exact h
      · simp only []
        exact addContributionsFor_adjInv _ _ _ _ _ h

lemma contributions_adjInv (p2t : List (ℕ × ℕ)) (t2p : List (ℕ × List ℕ))
    (chg : List (ℕ × ℤ)) :
    ∀ (results : List (ℕ × ℤ)) (acc : List TeammateContribution × List (ℕ × ℤ)),
      AdjInv acc → AdjInv (results.foldl (contributionStep p2t t2p chg) acc) := by
  intro results
  induction results with
  | nil => intro acc h; exact h
  | cons r rs ih =>
    intro acc h
    exact ih _ (contributionStep_adjInv _ _ _ _ _ h)

lemma mem_recordsFor {p2t : List (ℕ × ℕ)} {t2p : List (ℕ × List ℕ)}
    {chg : List (ℕ × ℤ)} {r : ℕ × ℤ} {c : TeammateContribution}
    (hc : c ∈ recordsFor p2t t2p chg r) :
    c.source_player_id = r.1 ∧ c.beneficiary_player_id ≠ r.1 ∧
      chg.lookup r.1 = some c.source_tournament_elo_change ∧
      c.contribution_amount
        = rustRoundQ ((c.source_tournament_elo_change : ℚ) * 0.2) := by
  rw [recordsFor] at hc
  rcases hlk : p2t.lookup r.1 with _ | team
  · rw [hlk] at hc; simp at hc
  · rw [hlk] at hc
    simp only [] at hc
    rcases hlk2 : t2p.lookup team with _ | ts
    · rw [hlk2] at hc; simp at hc
    · rw [hlk2] at hc
      simp only [] at hc
      rcases hlk3 : chg.lookup r.1 with _ | ch
      · rw [hlk3] at hc; simp at hc
      · rw [hlk3] at hc
        simp only [] at hc
        rcases List.mem_map.mp hc with ⟨t, ht, rfl⟩
        have := List.of_mem_filter ht
        simp only [decide_eq_true_eq] at this
        exact ⟨rfl, this, rfl, rfl⟩

lemma countP_recordsFor_ne {p2t : List (ℕ × ℕ)} {t2p : List (ℕ × List ℕ)}
    {chg : List (ℕ × ℤ)} {r : ℕ × ℤ} {s b : ℕ} (hs : r.1 ≠ s) :
    (recordsFor p2t t2p chg r).countP
      (fun c => c.source_player_id = s ∧ c.beneficiary_player_id = b) = 0 := by
  apply List.countP_eq_zero.mpr
  intro c hc
  have := (mem_recordsFor hc).1
  simp only [decide_eq_true_eq]
  rintro ⟨h1, -⟩
  exact hs (this ▸ h1)

lemma countP_flatMap {α β : Type} (l : List α) (f : α → List β) (p : β → Bool) :
    (l.flatMap f).countP p = (l.map (fun a => (f a).countP p)).sum := by
  induction l with
  | nil => simp
  | cons a t ih => simp [List.countP_append, ih]

lemma mem_of_lookup_eq_some {β : Type} {l : List (ℕ × β)} {k : ℕ} {v : β}
    (h : l.lookup k = some v) : (k, v) ∈ l := by
  induction l with
  | nil => simp [List.lookup] at h
  | cons e t ih =>
    rcases e with ⟨k', v'⟩
    rw [List.lookup] at h
    by_cases he : k = k'
    · subst he
      simp only [beq_self_eq_true] at h
      cases h
      exact List.mem_cons_self _ _
    · simp only [beq_false_of_ne he] at h
      exact List.mem_cons_of_mem _ (ih h)

lemma countP_eq_one_of_nodup_mem {l : List ℕ} (hnd : l.Nodup) {b : ℕ} (hb : b ∈ l) :
    l.countP (fun t => t = b) = 1 := by
  have h1 : l.count b = 1 := List.count_eq_one_of_mem hnd hb
  have h2 : l.countP (fun t => t = b) = l.count b := by
    rw [List.count]
    apply List.countP_congr
    intro t _
    simp
  omega

lemma countP_recordsFor_self {p2t : List (ℕ × ℕ)} {t2p : List (ℕ × List ℕ)}
    {chg : List (ℕ × ℤ)} {s : ℕ} {pos : ℤ} {team : ℕ} {roster : List ℕ} {δ : ℤ}
    {b : ℕ} (h1 : p2t.lookup s = some team) (h2 : t2p.lookup team = some roster)
    (h3 : chg.lookup s = some δ) (hb : b ∈ roster) (hbs : b ≠ s)
    (hndr : roster.Nodup) :
    (recordsFor p2t t2p chg (s, pos)).countP
      (fun c => c.source_player_id = s ∧ c.beneficiary_player_id = b) = 1 := by
  rw [recordsFor]
  simp only [h1, h2, h3]
  rw [List.countP_map]
  calc (roster.filter (fun t => t ≠ s)).countP
        (fun t => decide (s = s ∧ t = b))
      = (roster.filter (fun t => t ≠ s)).countP (fun t => decide (t = b)) :=
        List.countP_congr (fun t ht => by simp)
    _ = 1 := countP_eq_one_of_nodup_mem (hndr.filter _)
        (List.mem_filter.mpr ⟨hb, by simpa using hbs⟩)

lemma countP_contributions_flatMap (p2t : List (ℕ × ℕ)) (t2p : List (ℕ × List ℕ))
    (chg : List (ℕ × ℤ)) {s : ℕ} {pos : ℤ} {team : ℕ} {roster : List ℕ} {δ : ℤ}
    {b : ℕ} (h1 : p2t.lookup s = some team) (h2 : t2p.lookup team = some roster)
    (h3 : chg.lookup s = some δ) (hb : b ∈ roster) (hbs : b ≠ s)
    (hndr : roster.Nodup) :
    ∀ (results : List (ℕ × ℤ)), (results.map Prod.fst).Nodup →
      (s, pos) ∈ results →
      (results.flatMap (recordsFor p2t t2p chg)).countP
        (fun c => c.source_player_id = s ∧ c.beneficiary_player_id = b) = 1 := by
  intro results
  induction results with
  | nil => intro _ h; cases h
  | cons r rs ih =>
    intro hnd hmem
    have hnd' : (rs.map Prod.fst).Nodup := (List.nodup_cons.mp (by simpa using hnd)).2
    rw [List.flatMap_cons, List.countP_append]
    rcases List.mem_cons.mp hmem with rfl | hmem'
    · have hz : (rs.flatMap (recordsFor p2t t2p chg)).countP
          (fun c => c.source_player_id = s ∧ c.beneficiary_player_id = b) = 0 := by
        apply List.countP_eq_zero.mpr
        intro c hc
        rcases List.mem_flatMap.mp hc with ⟨r', hr', hcr⟩
        have hsrc := (mem_recordsFor hcr).1
        have hne : r'.1 ≠ s := by
          intro hcontra
          have : s ∈ rs.map Prod.fst := by
            rw [← hcontra]
            exact List.mem_map_of_mem Prod.fst hr'
          exact (List.nodup_cons.mp (by simpa using hnd)).1 this
        simp only [decide_eq_true_eq]
        rintro ⟨hc1, -⟩
        exact hne (hsrc ▸ hc1)
      rw [countP_recordsFor_self h1 h2 h3 hb hbs hndr, hz]
    · have hrs : r.1 ≠ s := by
        intro hcontra
        have : s ∈ rs.map Prod.fst := by
          rw [← show (s, pos).1 = s from rfl]
          exact List.mem_map_of_mem Prod.fst hmem'
        rw [← hcontra] at this
        exact (List.nodup_cons.mp (by simpa using hnd)).1 this
      rw [countP_recordsFor_ne hrs, ih hnd' hmem']

/-- **C8.** `calculate_teammate_contributions` emits, for each race participant
whose team is in the roster map and whose tournament delta is recorded, exactly
one contribution record to every other member of that participant's team, each
for `round(0.2 * source delta)`; no record names its source as beneficiary; and
every beneficiary's aggregate adjustment equals the sum of the contribution
amounts naming them. -/
theorem calculate_teammate_contributions_correct
    (results : List (ℕ × ℤ)) (p2t : List (ℕ × ℕ)) (t2p : List (ℕ × List ℕ))
    (chg : List (ℕ × ℤ))
    (hres : (results.map Prod.fst).Nodup)
    (hroster : ∀ e ∈ t2p, (e.2 : List ℕ).Nodup) :
    (∀ s pos, (s, pos) ∈ results → ∀ team, p2t.lookup s = some team →
      ∀ roster, t2p.lookup team = some roster → ∀ δ, chg.lookup s = some δ →
        ∀ b ∈ roster, b ≠ s →
          (calculate_teammate_contributions results p2t t2p chg).1.countP
            (fun c => c.source_player_id = s ∧ c.beneficiary_player_id = b) = 1) ∧
    (∀ c ∈ (calculate_teammate_contributions results p2t t2p chg).1,
        c.source_player_id ≠ c.beneficiary_player_id ∧
        chg.lookup c.source_player_id = some c.source_tournament_elo_change ∧
        c.contribution_amount
          = rustRoundQ ((c.source_tournament_elo_change : ℚ) * 0.2)) ∧
    (∀ b : ℕ, (((calculate_teammate_contributions results p2t t2p chg).2.lookup
          b).getD 0)
        = (((calculate_teammate_contributions results p2t t2p chg).1.filter
            (fun c => c.beneficiary_player_id = b)).map
              (fun c => c.contribution_amount)).sum) := by
  have hfst : (calculate_teammate_contributions results p2t t2p chg).1
      = results.flatMap (recordsFor p2t t2p chg) := by
    rw [calculate_teammate_contributions, contributions_fst_eq]
    simp
  refine ⟨?_, ?_, ?_⟩
  · intro s pos hmem team h1 roster h2 δ h3 b hb hbs
    rw [hfst]
    have hndr : roster.Nodup := hroster (team, roster) (mem_of_lookup_eq_some h2)
    exact countP_contributions_flatMap p2t t2p chg h1 h2 h3 hb hbs hndr
      results hres hmem
  · intro c hc
    rw [hfst] at hc
    rcases List.mem_flatMap.mp hc with ⟨r, _, hcr⟩
    obtain ⟨hsrc, hben, hlook, hamt⟩ := mem_recordsFor hcr
    refine ⟨?_, ?_, hamt⟩
    · rw [hsrc]; exact fun hcontra => hben hcontra.symm
    · rw [hsrc]; exact hlook
  · have hbase : AdjInv ([], []) := by
      intro b
      simp [List.lookup]
    exact contributions_adjInv p2t t2p chg results ([], []) hbase

/-- Witness for `calculate_teammate_contributions_correct` on a concrete
two-teammate race. -/
theorem calculate_teammate_contributions_correct_witness :
    (calculate_teammate_contributions [(1, 1)] [(1, 7), (2, 7)]
        [(7, [1, 2])] [(1, 50)]).1.countP
      (fun c => c.source_player_id = 1 ∧ c.beneficiary_player_id = 2) = 1 :=
  (calculate_teammate_contributions_correct [(1, 1)] [(1, 7), (2, 7)]
      [(7, [1, 2])] [(1, 50)] (by decide) (by decide)).1
    1 1 (by decide) 7 (by decide) [1, 2] (by decide) 50 (by decide) 2
    (by decide) (by decide)

/-! ## Team allocation (`services/team_allocation.rs`) -/

structure Player where
  id : ℕ
  elo_rating : ℤ
deriving DecidableEq, Repr

structure Team where
  team_num : ℤ
  players : List Player
  total_elo : ℤ
deriving DecidableEq, Repr

/-- `calculate_team_sizes`: base size `num_players / num_teams`, the first
`num_players % num_teams` teams get one extra player. -/
def calculate_team_sizes (num_players num_teams : ℕ) : List ℕ :=
  let base_size := num_players / num_teams
  let remainder := num_players % num_teams
  (List.range num_teams).map (fun team_idx =>
    if team_idx < remainder then base_size + 1 else base_size)

/-- The `get_elo` closure: the rating from the map, defaulting to the player's
stored all-time rating. -/
def get_elo (elo_ratings : List (ℕ × ℤ)) (p : Player) : ℤ :=
  (elo_ratings.lookup p.id).getD p.elo_rating

/-- Rust's `Iterator::min_by_key` on an enumerated team list: the first element
attaining the minimal `total_elo` (later elements replace only on strict
decrease). -/
def minByKeyFirst (l : List (ℕ × Team)) : Option (ℕ × Team) :=
  l.foldl
    (fun acc x =>
      match acc with
      | none => some x
      | some y => if x.2.total_elo < y.2.total_elo then some x else acc)
    none

/-- The `filter` of `allocate_teams`' fold: the enumerated teams that still
have capacity. -/
def candidateTeams (team_sizes : List ℕ) (teams : List Team) : List (ℕ × Team) :=
  teams.enum.filter (fun x => x.2.players.length < team_sizes.getD x.1 0)

/-- One step of the `allocate_teams` fold: add the player to the not-yet-full
team with the lowest total rating (first such team on ties; `unwrap_or(0)`
falls back to team 0). -/
def assignStep (team_sizes : List ℕ) (elo_ratings : List (ℕ × ℤ))
    (teams : List Team) (player : Player) : List Team :=
  let player_elo := get_elo elo_ratings player
  let team_idx :=
    ((minByKeyFirst (candidateTeams team_sizes teams)).map Prod.fst).getD 0
  teams.enum.map (fun x =>
    if x.1 = team_idx then
      { team_num := x.2.team_num
        players := x.2.players ++ [player]
        total_elo := x.2.total_elo + player_elo }
    else x.2)

/-- The stable descending sort `sorted_players.sort_by(|a, b|
get_elo(b).cmp(&get_elo(a)))`. -/
def sorted_players_desc (elo_ratings : List (ℕ × ℤ))
    (players : List Player) : List Player :=
  players.mergeSort (fun a b => get_elo elo_ratings b ≤ get_elo elo_ratings a)

/-- The `initial_teams`: `num_teams` empty teams numbered from 1. -/
def initial_teams (num_teams : ℕ) : List Team :=
  (List.range num_teams).map
    (fun (team_idx : ℕ) => ⟨(team_idx : ℤ) + 1, [], 0⟩)

/-- `allocate_teams` (balanced mode): stable-sort players by rating descending,
then fold them into `min(players_per_race, num_players)` teams greedily. -/
def allocate_teams (players : List Player) (players_per_race : ℕ)
    (elo_ratings : List (ℕ × ℤ)) : List Team :=
  let sorted_players := sorted_players_desc elo_ratings players
  let num_players := players.length
  let num_teams := min players_per_race num_players
  let team_sizes := calculate_team_sizes num_players num_teams
  sorted_players.foldl (assignStep team_sizes elo_ratings)
    (initial_teams num_teams)

/-! ### Supporting lemmas for team allocation -/

lemma minByKeyFirst_go (c : ℕ × Team) :
    ∀ t : List (ℕ × Team), ∃ w,
      t.foldl
        (fun acc x =>
          match acc with
          | none => some x
          | some y => if x.2.total_elo < y.2.total_elo then some x else acc)
        (some c) = some w ∧
      ((w = c ∧ ∀ x ∈ t, c.2.total_elo ≤ x.2.total_elo) ∨
       (∃ t₁ t₂, t = t₁ ++ w :: t₂ ∧ w.2.total_elo < c.2.total_elo ∧
        (∀ x ∈ t₁, w.2.total_elo < x.2.total_elo) ∧
        (∀ x ∈ t₂, w.2.total_elo ≤ x.2.total_elo))) := by
  intro t
  induction t generalizing c with
  | nil => exact ⟨c, rfl, Or.inl ⟨rfl, by simp⟩⟩
  | cons x t ih =>
    rw [List.foldl_cons]
    by_cases hx : x.2.total_elo < c.2.total_elo
    · simp only [if_pos hx]
      obtain ⟨w, hw, hcase⟩ := ih x
      refine ⟨w, hw, Or.inr ?_⟩
      rcases hcase with ⟨rfl, hall⟩ | ⟨t₁, t₂, rfl, hlt, h₁, h₂⟩
      · exact ⟨[], t, rfl, hx, by simp, hall⟩
      · exact ⟨x :: t₁, t₂, rfl, lt_trans hlt hx,
          by
            intro y hy
            rcases List.mem_cons.mp hy with rfl | hy'
            · exact hlt
            · exact h₁ y hy', h₂⟩
    · simp only [if_neg hx]
      push_neg at hx
      obtain ⟨w, hw, hcase⟩ := ih c
      refine ⟨w, hw, ?_⟩
      rcases hcase with ⟨rfl, hall⟩ | ⟨t₁, t₂, rfl, hlt, h₁, h₂⟩
      · refine Or.inl ⟨rfl, ?_⟩
        intro y hy
        rcases List.mem_cons.mp hy with rfl | hy'
        · exact hx
        · exact hall y hy'
      · refine Or.inr ⟨x :: t₁, t₂, rfl, hlt, ?_, h₂⟩
        intro y hy
        rcases List.mem_cons.mp hy with rfl | hy'
        · exact lt_of_lt_of_le hlt hx
        · exact h₁ y hy'

/-- `min_by_key` on a non-empty list returns the first element attaining the
minimal key. -/
lemma minByKeyFirst_spec (l : List (ℕ × Team)) (hne : l ≠ []) :
    ∃ c l₁ l₂, minByKeyFirst l = some c ∧ l = l₁ ++ c :: l₂ ∧
      (∀ x ∈ l₁, c.2.total_elo < x.2.total_elo) ∧
      (∀ x ∈ l₂, c.2.total_elo ≤ x.2.total_elo) := by
  rcases l with _ | ⟨a, t⟩
  · exact absurd rfl hne
  rw [minByKeyFirst, List.foldl_cons]
  obtain ⟨w, hw, hcase⟩ := minByKeyFirst_go a t
  rcases hcase with ⟨rfl, hall⟩ | ⟨t₁, t₂, rfl, hlt, h₁, h₂⟩
  · exact ⟨w, [], t, hw, rfl, by simp, hall⟩
  · refine ⟨w, a :: t₁, t₂, hw, rfl, ?_, h₂⟩
    intro y hy
    rcases List.mem_cons.mp hy with rfl | hy'
    · exact hlt
    · exact h₁ y hy'

lemma enum_map_ite_eq_set (teams : List Team) (j : ℕ) (hj : j < teams.length)
    (f : Team → Team) :
    teams.enum.map (fun x => if x.1 = j then f x.2 else x.2)
      = teams.set j (f (teams[j])) := by
  apply List.ext_getElem
  · simp
  · intro n h₁ h₂
    have hn : n < teams.length := by simpa using h₂
    rw [List.getElem_map, List.getElem_enum, List.getElem_set]
    by_cases hnj : n = j
    · subst hnj
      simp
    · simp [hnj, Ne.symm hnj]

lemma mem_candidateTeams {sizes : List ℕ} {teams : List Team} {c : ℕ × Team}
    (hc : c ∈ candidateTeams sizes teams) :
    ∃ h : c.1 < teams.length,
      teams[c.1] = c.2 ∧ c.2.players.length < sizes.getD c.1 0 := by
  rw [candidateTeams, List.mem_filter] at hc
  obtain ⟨henum, hcap⟩ := hc
  have hx := List.mem_enum_iff_getElem?.mp henum
  have hlt : c.1 < teams.length := by
    by_contra hge
    rw [List.getElem?_eq_none (by omega)] at hx
    cases hx
  refine ⟨hlt, ?_, of_decide_eq_true hcap⟩
  rw [List.getElem?_eq_getElem hlt] at hx
  exact Option.some_injective _ hx

lemma candidateTeams_ne_nil {sizes : List ℕ} {teams : List Team}
    (hlen : teams.length = sizes.length)
    (hbound : ∀ i (h : i < teams.length),
      (teams[i]).players.length ≤ sizes.getD i 0)
    (hsum : (teams.map (fun t => t.players.length)).sum < sizes.sum) :
    candidateTeams sizes teams ≠ [] := by
  intro hnil
  have hall := List.filter_eq_nil_iff.mp hnil
  have heq : teams.map (fun t => t.players.length) = sizes := by
    apply List.ext_getElem (by simpa using hlen)
    intro n h₁ h₂
    have hn : n < teams.length := by simpa using h₁
    have hmem : (n, teams[n]) ∈ teams.enum := by
      apply List.mem_enum_iff_getElem?.mpr
      exact List.getElem?_eq_getElem hn
    have h3 := hall (n, teams[n]) hmem
    simp only [decide_eq_true_eq] at h3
    have h4 := hbound n hn
    rw [List.getElem_map]
    rw [List.getD_eq_getElem sizes 0 h₂] at h3 h4
    omega
  rw [heq] at hsum
  omega

lemma assignStep_eq_set (sizes : List ℕ) (elo : List (ℕ × ℤ))
    (teams : List Team) (player : Player)
    (hlen : teams.length = sizes.length)
    (hbound : ∀ i (h : i < teams.length),
      (teams[i]).players.length ≤ sizes.getD i 0)
    (hsum : (teams.map (fun t => t.players.length)).sum < sizes.sum) :
    ∃ (c : ℕ × Team) (l₁ l₂ : List (ℕ × Team)),
      candidateTeams sizes teams = l₁ ++ c :: l₂ ∧
      (∀ x ∈ l₁, c.2.total_elo < x.2.total_elo) ∧
      (∀ x ∈ l₂, c.2.total_elo ≤ x.2.total_elo) ∧
      ∃ h : c.1 < teams.length,
        teams[c.1] = c.2 ∧ c.2.players.length < sizes.getD c.1 0 ∧
        assignStep sizes elo teams player
          = teams.set c.1 ⟨c.2.team_num, c.2.players ++ [player],
              c.2.total_elo + get_elo elo player⟩ := by
  obtain ⟨c, l₁, l₂, hmin, hdecomp, h₁, h₂⟩ :=
    minByKeyFirst_spec _ (candidateTeams_ne_nil hlen hbound hsum)
  have hc : c ∈ candidateTeams sizes teams := by
    rw [hdecomp]
    exact List.mem_append.mpr (Or.inr (List.mem_cons_self _ _))
  obtain ⟨hclt, hceq, hcap⟩ := mem_candidateTeams hc
  refine ⟨c, l₁, l₂, hdecomp, h₁, h₂, hclt, hceq, hcap, ?_⟩
  have hidx : ((minByKeyFirst (candidateTeams sizes teams)).map Prod.fst).getD 0
      = c.1 := by
    rw [hmin]
    rfl
  rw [assignStep, hidx, ← hceq]
  exact enum_map_ite_eq_set teams c.1 hclt
    (fun t => ⟨t.team_num, t.players ++ [player],
      t.total_elo + get_elo elo player⟩)

lemma sum_set_nat (l : List ℕ) (j : ℕ) (hj : j < l.length) (v : ℕ) :
    (l.set j v).sum + l[j] = l.sum + v := by
  have hdecomp : l.sum = (l.take j).sum + l[j] + (l.drop (j + 1)).sum := by
    conv_lhs => rw [← List.take_append_drop j l, List.drop_eq_getElem_cons hj]
    rw [List.sum_append, List.sum_cons]
    omega
  rw [List.set_eq_take_cons_drop v hj, List.sum_append, List.sum_cons, hdecomp]
  omega

lemma flatMap_set_perm (teams : List Team) (j : ℕ) (hj : j < teams.length)
    (player : Player) (nt : Team) (hnt : nt.players = (teams[j]).players ++ [player]) :
    ((teams.set j nt).flatMap (fun t => t.players)).Perm
      ((teams.flatMap (fun t => t.players)) ++ [player]) := by
  rw [List.set_eq_take_cons_drop nt hj]
  conv_rhs => rw [← List.take_append_drop j teams]
  rw [List.drop_eq_getElem_cons hj]
  rw [← Multiset.coe_eq_coe]
  simp only [List.flatMap_append, List.flatMap_cons, hnt, ← Multiset.coe_add]
  push_cast
  abel

lemma fold_assign_invariant (sizes : List ℕ) (elo : List (ℕ × ℤ)) :
    ∀ (ps : List Player) (teams : List Team),
      teams.length = sizes.length →
      (∀ i (h : i < teams.length), (teams[i]).players.length ≤ sizes.getD i 0) →
      (teams.map (fun t => t.players.length)).sum + ps.length ≤ sizes.sum →
      (ps.foldl (assignStep sizes elo) teams).length = teams.length ∧
      (∀ i (h : i < (ps.foldl (assignStep sizes elo) teams).length),
        ((ps.foldl (assignStep sizes elo) teams)[i]).players.length
          ≤ sizes.getD i 0) ∧
      ((ps.foldl (assignStep sizes elo) teams).map
          (fun t => t.players.length)).sum
        = (teams.map (fun t => t.players.length)).sum + ps.length ∧
      ((ps.foldl (assignStep sizes elo) teams).flatMap
          (fun t => t.players)).Perm
        ((teams.flatMap (fun t => t.players)) ++ ps) ∧
      (∀ i (h : i < (ps.foldl (assignStep sizes elo) teams).length)
          (h' : i < teams.length),
        ((ps.foldl (assignStep sizes elo) teams)[i]).team_num
          = (teams[i]).team_num) := by
  intro ps
  induction ps with
  | nil =>
    intro teams hlen hbound hsum
    exact ⟨rfl, hbound, by simp, by simp, fun i h h' => rfl⟩
  | cons p ps ih =>
    intro teams hlen hbound hsum
    have hstrict : (teams.map (fun t => t.players.length)).sum < sizes.sum := by
      simp only [List.length_cons] at hsum
      omega
    obtain ⟨c, l₁, l₂, _, _, _, hclt, hceq, hcap, hstep⟩ :=
      assignStep_eq_set sizes elo teams p hlen hbound hstrict
    set nt : Team := ⟨c.2.team_num, c.2.players ++ [p],
      c.2.total_elo + get_elo elo p⟩ with hnt
    have hlen' : (teams.set c.1 nt).length = sizes.length := by
      rw [List.length_set]
      exact hlen
    have hbound' : ∀ i (h : i < (teams.set c.1 nt).length),
        ((teams.set c.1 nt)[i]).players.length ≤ sizes.getD i 0 := by
      intro i h
      have hi : i < teams.length := by simpa using h
      rw [List.getElem_set]
      by_cases hci : c.1 = i
      · subst hci
        rw [if_pos rfl]
        simp only [hnt, List.length_append, List.length_cons, List.length_nil]
        omega
      · rw [if_neg hci]
        exact hbound i hi
    have hsum' : ((teams.set c.1 nt).map (fun t => t.players.length)).sum
        = (teams.map (fun t => t.players.length)).sum + 1 := by
      rw [List.map_set]
      have hjm : c.1 < (teams.map (fun t => t.players.length)).length := by
        simpa using hclt
      have := sum_set_nat (teams.map (fun t => t.players.length)) c.1 hjm
        nt.players.length
      rw [List.getElem_map] at this
      have hntlen : nt.players.length = (teams[c.1]).players.length + 1 := by
        rw [hnt, hceq]
        simp
      omega
    have hperm' : ((teams.set c.1 nt).flatMap (fun t => t.players)).Perm
        ((teams.flatMap (fun t => t.players)) ++ [p]) :=
      flatMap_set_perm teams c.1 hclt p nt (by rw [hnt, hceq])
    have hsum'' : ((teams.set c.1 nt).map (fun t => t.players.length)).sum
        + ps.length ≤ sizes.sum := by
      simp only [List.length_cons] at hsum
      omega
    obtain ⟨ihlen, ihbound, ihsum, ihperm, ihnum⟩ :=
      ih (teams.set c.1 nt) hlen' hbound' hsum''
    rw [List.foldl_cons, hstep]
    refine ⟨by rw [ihlen, List.length_set], ihbound, ?_, ?_, ?_⟩
    · rw [ihsum, hsum']
      simp only [List.length_cons]
      omega
    · refine (ihperm.trans ?_)
      have h1 : (((teams.set c.1 nt).flatMap (fun t => t.players)) ++ ps).Perm
          (((teams.flatMap (fun t => t.players)) ++ [p]) ++ ps) :=
        hperm'.append_right ps
      have h2 : ((teams.flatMap (fun t => t.players)) ++ [p]) ++ ps
          = (teams.flatMap (fun t => t.players)) ++ (p :: ps) := by simp
      rw [h2] at h1
      exact h1
    · intro i h h'
      have hi : i < (teams.set c.1 nt).length := by
        rw [List.length_set]
        exact h'
      rw [ihnum i h hi, List.getElem_set]
      by_cases hci : c.1 = i
      · subst hci
        rw [if_pos rfl, hnt, ← hceq]
      · rw [if_neg hci]

lemma calculate_team_sizes_length (n k : ℕ) :
    (calculate_team_sizes n k).length = k := by
  simp [calculate_team_sizes]

lemma range_map_ite_sum (r b : ℕ) :
    ∀ m : ℕ,
      (((List.range m).map (fun i => if i < r then b + 1 else b)).sum)
        = b * m + min r m := by
  intro m
  induction m with
  | zero => simp
  | succ m ih =>
    rw [List.range_succ, List.map_append, List.sum_append, ih]
    simp only [List.map_cons, List.map_nil, List.sum_cons, List.sum_nil]
    have hms : b * (m + 1) = b * m + b := by ring
    rcases Nat.lt_or_ge m r with hmr | hmr
    · rw [if_pos hmr, min_eq_right (le_of_lt hmr), min_eq_right (by omega)]
      omega
    · rw [if_neg (by omega), min_eq_left (by omega), min_eq_left (by omega)]
      omega

lemma calculate_team_sizes_sum (n k : ℕ) (hk : 0 < k) :
    (calculate_team_sizes n k).sum = n := by
  rw [calculate_team_sizes]
  rw [range_map_ite_sum]
  have h1 : n % k < k := Nat.mod_lt _ hk
  rw [min_eq_left (le_of_lt h1)]
  calc n / k * k + n % k = k * (n / k) + n % k := by rw [Nat.mul_comm]
    _ = n := Nat.div_add_mod n k

lemma calculate_team_sizes_getElem (n k : ℕ) (i : ℕ)
    (h : i < (calculate_team_sizes n k).length) :
    (calculate_team_sizes n k)[i]
      = if i < n % k then n / k + 1 else n / k := by
  simp [calculate_team_sizes]

lemma sum_le_of_entrywise_le :
    ∀ (a b : List ℕ), a.length = b.length →
      (∀ i (h₁ : i < a.length) (h₂ : i < b.length), a[i] ≤ b[i]) →
      a.sum ≤ b.sum := by
  intro a
  induction a with
  | nil => intro b _ _; simp
  | cons x xs ih =>
    intro b hlen hle
    rcases b with _ | ⟨y, ys⟩
    · simp at hlen
    · have hx : x ≤ y := hle 0 (by simp) (by simp)
      have hxs := ih ys (by simpa using hlen)
        (fun i h₁ h₂ => hle (i + 1) (by simpa using h₁) (by simpa using h₂))
      simp only [List.sum_cons]
      omega

lemma eq_of_entrywise_le_of_sum_eq :
    ∀ (a b : List ℕ), a.length = b.length →
      (∀ i (h₁ : i < a.length) (h₂ : i < b.length), a[i] ≤ b[i]) →
      a.sum = b.sum → a = b := by
  intro a
  induction a with
  | nil =>
    intro b hlen _ _
    exact (List.length_eq_zero.mp hlen.symm).symm
  | cons x xs ih =>
    intro b hlen hle hsum
    rcases b with _ | ⟨y, ys⟩
    · simp at hlen
    · have hx : x ≤ y := hle 0 (by simp) (by simp)
      have hxs := sum_le_of_entrywise_le xs ys (by simpa using hlen)
        (fun i h₁ h₂ => hle (i + 1) (by simpa using h₁) (by simpa using h₂))
      simp only [List.sum_cons] at hsum
      have hxy : x = y := by omega
      subst hxy
      have hsum' : xs.sum = ys.sum := by omega
      rw [ih ys (by simpa using hlen)
        (fun i h₁ h₂ => hle (i + 1) (by simpa using h₁) (by simpa using h₂))
        hsum']

/-- **C6.** For a non-empty player list and a team count `K` with
`1 ≤ K ≤ N`, balanced-mode `allocate_teams` returns exactly `K` teams whose
player lists partition the input (as a multiset), whose sizes are exactly
`calculate_team_sizes N K` — so sizes differ by at most one, larger teams
first — and it equals the greedy fold that processes the players in
stable-sorted descending rating order, each step appending the player to the
first not-yet-full team of currently lowest total rating. -/
theorem allocate_teams_correct (players : List Player) (K : ℕ)
    (elo : List (ℕ × ℤ)) (hK1 : 1 ≤ K) (hKN : K ≤ players.length) :
    (allocate_teams players K elo).length = K ∧
    ((allocate_teams players K elo).flatMap (fun t => t.players)).Perm players ∧
    ((allocate_teams players K elo).map (fun t => t.players.length))
      = calculate_team_sizes players.length K ∧
    (∀ i (hi : i < (allocate_teams players K elo).length)
        (hj : i + 1 < (allocate_teams players K elo).length),
      ((allocate_teams players K elo)[i + 1]).players.length
          ≤ ((allocate_teams players K elo)[i]).players.length ∧
        ((allocate_teams players K elo)[i]).players.length
          ≤ ((allocate_teams players K elo)[i + 1]).players.length + 1) ∧
    (allocate_teams players K elo
      = (sorted_players_desc elo players).foldl
          (assignStep (calculate_team_sizes players.length K) elo)
          (initial_teams K)) ∧
    (sorted_players_desc elo players).Pairwise
      (fun a b => get_elo elo b ≤ get_elo elo a) ∧
    ((sorted_players_desc elo players).Perm players) ∧
    (∀ teams player,
      teams.length = K →
      (∀ i (h : i < teams.length), (teams[i]).players.length
        ≤ (calculate_team_sizes players.length K).getD i 0) →
      (teams.map (fun t => t.players.length)).sum < players.length →
      ∃ (c : ℕ × Team) (l₁ l₂ : List (ℕ × Team)),
        candidateTeams (calculate_team_sizes players.length K) teams
          = l₁ ++ c :: l₂ ∧
        (∀ x ∈ l₁, c.2.total_elo < x.2.total_elo) ∧
        (∀ x ∈ l₂, c.2.total_elo ≤ x.2.total_elo) ∧
        ∃ h : c.1 < teams.length,
          teams[c.1] = c.2 ∧
          assignStep (calculate_team_sizes players.length K) elo teams player
            = teams.set c.1 ⟨c.2.team_num, c.2.players ++ [player],
                c.2.total_elo + get_elo elo player⟩) := by
  have hmin : min K players.length = K := min_eq_left hKN
  have hunfold : allocate_teams players K elo
      = (sorted_players_desc elo players).foldl
          (assignStep (calculate_team_sizes players.length K) elo)
          (initial_teams K) := by
    rw [allocate_teams, hmin]
  have hsortperm : (sorted_players_desc elo players).Perm players :=
    List.mergeSort_perm players _
  have hsortlen : (sorted_players_desc elo players).length = players.length :=
    hsortperm.length_eq
  have hinitlen : (initial_teams K).length
      = (calculate_team_sizes players.length K).length := by
    rw [calculate_team_sizes_length, initial_teams]
    simp
  have hinitplayers : ∀ t ∈ initial_teams K, t.players = [] := by
    intro t ht
    rcases List.mem_map.mp ht with ⟨j, _, rfl⟩
    rfl
  have hinitbound : ∀ i (h : i < (initial_teams K).length),
      ((initial_teams K)[i]).players.length
        ≤ (calculate_team_sizes players.length K).getD i 0 := by
    intro i h
    rw [hinitplayers ((initial_teams K)[i]) (List.getElem_mem h)]
    simp
  have hinitsum0 : ((initial_teams K).map (fun t => t.players.length)).sum
      = 0 := by
    apply List.sum_eq_zero
    intro x hx
    rcases List.mem_map.mp hx with ⟨t, ht, rfl⟩
    rw [hinitplayers t ht]
    rfl
  have hinitsum : ((initial_teams K).map (fun t => t.players.length)).sum
      + (sorted_players_desc elo players).length
      ≤ (calculate_team_sizes players.length K).sum := by
    rw [hinitsum0, hsortlen, calculate_team_sizes_sum players.length K hK1]
    omega
  obtain ⟨hflen, hfbound, hfsum, hfperm, hfnum⟩ :=
    fold_assign_invariant (calculate_team_sizes players.length K) elo
      (sorted_players_desc elo players) (initial_teams K)
      hinitlen hinitbound hinitsum
  have hlenK : (allocate_teams players K elo).length = K := by
    rw [hunfold, hflen, initial_teams]
    simp
  have hsizeseq : ((allocate_teams players K elo).map
      (fun t => t.players.length)) = calculate_team_sizes players.length K := by
    apply eq_of_entrywise_le_of_sum_eq
    · rw [List.length_map, hlenK, calculate_team_sizes_length]
    · intro i h₁ h₂
      rw [List.getElem_map]
      have hi : i < ((sorted_players_desc elo players).foldl
          (assignStep (calculate_team_sizes players.length K) elo)
          (initial_teams K)).length := by
        rw [← hunfold]
        simpa using h₁
      have hb := hfbound i hi
      rw [List.getD_eq_getElem (calculate_team_sizes players.length K) 0 h₂]
        at hb
      have hbound1 : i < (allocate_teams players K elo).length := by
        simpa using h₁
      have hover : (allocate_teams players K elo)[i]
          = ((sorted_players_desc elo players).foldl
              (assignStep (calculate_team_sizes players.length K) elo)
              (initial_teams K))[i] := List.getElem_of_eq hunfold _
      rw [hover]
      exact hb
    · rw [hunfold, hfsum, hinitsum0, hsortlen,
        calculate_team_sizes_sum players.length K hK1]
      omega
  refine ⟨hlenK, ?_, hsizeseq, ?_, hunfold, ?_, hsortperm, ?_⟩
  · have h0 : (initial_teams K).flatMap (fun t => t.players) = [] := by
      apply List.flatMap_eq_nil_iff.mpr
      intro t ht
      exact hinitplayers t ht
    rw [hunfold]
    refine hfperm.trans ?_
    rw [h0]
    simpa using hsortperm
  · intro i hi hj
    have hKi : i < K := by rw [hlenK] at hi; exact hi
    have hKj : i + 1 < K := by rw [hlenK] at hj; exact hj
    have hbi : i < (calculate_team_sizes players.length K).length := by
      rw [calculate_team_sizes_length]; exact hKi
    have hbj : i + 1 < (calculate_team_sizes players.length K).length := by
      rw [calculate_team_sizes_length]; exact hKj
    have e1 : ((allocate_teams players K elo)[i]).players.length
        = (calculate_team_sizes players.length K)[i] := by
      have hh := List.getElem_of_eq hsizeseq (i := i)
        (by simpa using hi)
      rw [List.getElem_map] at hh
      exact hh
    have e2 : ((allocate_teams players K elo)[i + 1]).players.length
        = (calculate_team_sizes players.length K)[i + 1] := by
      have hh := List.getElem_of_eq hsizeseq (i := i + 1)
        (by simpa using hj)
      rw [List.getElem_map] at hh
      exact hh
    rw [e1, e2, calculate_team_sizes_getElem players.length K i hbi,
      calculate_team_sizes_getElem players.length K (i + 1) hbj]
    constructor
    · by_cases h1 : i + 1 < players.length % K <;>
        by_cases h2 : i < players.length % K <;>
        simp only [h1, h2, if_pos, if_neg, if_true, if_false] <;> omega
    · by_cases h1 : i + 1 < players.length % K <;>
        by_cases h2 : i < players.length % K <;>
        simp only [h1, h2, if_pos, if_neg, if_true, if_false] <;> omega
  · have htrans : ∀ a b c : Player,
        (decide (get_elo elo b ≤ get_elo elo a)) = true →
        (decide (get_elo elo c ≤ get_elo elo b)) = true →
        (decide (get_elo elo c ≤ get_elo elo a)) = true := by
      intro a b c hab hbc
      simp only [decide_eq_true_eq] at hab hbc ⊢
      exact le_trans hbc hab
    have htotal : ∀ a b : Player,
        ((decide (get_elo elo b ≤ get_elo elo a))
          || (decide (get_elo elo a ≤ get_elo elo b))) = true := by
      intro a b
      simp only [Bool.or_eq_true, decide_eq_true_eq]
      exact le_total _ _
    have hs := List.sorted_mergeSort htrans htotal players
    rw [sorted_players_desc]
    refine hs.imp ?_
    intro a b hab
    exact of_decide_eq_true hab
  · intro teams player htlen htbound htsum
    have htlen' : teams.length
        = (calculate_team_sizes players.length K).length := by
      rw [htlen, calculate_team_sizes_length]
    have htsum' : (teams.map (fun t => t.players.length)).sum
        < (calculate_team_sizes players.length K).sum := by
      rw [calculate_team_sizes_sum players.length K hK1]
      exact htsum
    obtain ⟨c, l₁, l₂, hd, hl1, hl2, hc, hceq, _, hstep⟩ :=
      assignStep_eq_set (calculate_team_sizes players.length K) elo teams
        player htlen' htbound htsum'
    exact ⟨c, l₁, l₂, hd, hl1, hl2, hc, hceq, hstep⟩

/-- Witness for `allocate_teams_correct`: three players into two teams. -/
theorem allocate_teams_correct_witness :
    ((allocate_teams [⟨1, 1400⟩, ⟨2, 1200⟩, ⟨3, 1000⟩] 2 []).map
        (fun t => t.players.length))
      = calculate_team_sizes 3 2 :=
  (allocate_teams_correct [⟨1, 1400⟩, ⟨2, 1200⟩, ⟨3, 1000⟩] 2 []
    (by decide) (by decide)).2.2.1

/-! ## Race allocation (`services/race_allocation.rs`)

The position-index schedules are folds carrying the `used_counts` vector; the
two inner selection rules become `chooseEqualPos` and `chooseWeightedPos`.
Rust's in-range indexing `team_players[pos]` is modelled with `getD`, and the
verified invariants keep every index in range. -/

structure RaceAllocation where
  race_number : ℤ
  player_ids : List ℕ
deriving DecidableEq, Repr

structure PlayerWithElo where
  id : ℕ
  elo : ℤ
deriving DecidableEq, Repr, Inhabited

/-- The accumulator pattern shared by Rust's `min_by_key`/`max_by_key`:
start from `none`, take the new element whenever `P current new` holds. -/
def pickFold {α : Type} (P : α → α → Prop) [DecidableRel P] (l : List α) :
    Option α :=
  l.foldl
    (fun acc x =>
      match acc with
      | none => some x
      | some y => if P y x then some x else acc)
    none

/-- `Iterator::min_by_key` over position indices: the first element attaining
the minimal key (replace only on strict decrease). -/
def minByKeyFirstWith {κ : Type} [LinearOrder κ] (key : ℕ → κ) (l : List ℕ) :
    Option ℕ :=
  pickFold (fun y x => key x < key y) l

/-- Position choice in the `all_equal` branch: the proportionally mapped ideal
position if it still has target uses left, otherwise the least-used position
with remaining capacity (`unwrap_or(0)`). -/
def chooseEqualPos (team_size primary_team_size target_uses_per_position : ℕ)
    (used_counts : List ℕ) (race_idx : ℕ) : ℕ :=
  let primary_pos := race_idx % primary_team_size
  let ideal_pos := primary_pos * team_size / primary_team_size
  if used_counts.getD ideal_pos 0 < target_uses_per_position then ideal_pos
  else
    (minByKeyFirstWith (fun p => used_counts.getD p 0)
      ((List.range team_size).filter
        (fun p => used_counts.getD p 0 < target_uses_per_position))).getD 0

/-- Position choice in the weighted branch: among positions with remaining
target uses, minimise rating distance to the primary team's scheduled player
plus a 5000-per-use penalty (`unwrap_or(0)`). -/
def chooseWeightedPos (team_size primary_team_size : ℕ)
    (primary_players team_players : List PlayerWithElo)
    (target_uses : List ℕ) (used_counts : List ℕ) (race_idx : ℕ) : ℕ :=
  let primary_position_idx := race_idx % primary_team_size
  let primary_elo := (primary_players.getD primary_position_idx default).elo
  (minByKeyFirstWith
    (fun pos_idx =>
      |(team_players.getD pos_idx default).elo - primary_elo|
        + ((used_counts.getD pos_idx 0 : ℤ)) * 5000)
    ((List.range team_size).filter
      (fun pos_idx => used_counts.getD pos_idx 0 < target_uses.getD pos_idx 0))
    ).getD 0

/-- The schedule-building loop: starting from all-zero `used_counts`, pick a
position for each race index, record it, and bump its use count. -/
def scheduleFold (choose : List ℕ → ℕ → ℕ) (team_size races : ℕ) :
    List ℕ × List ℕ :=
  (List.range races).foldl
    (fun acc race_idx =>
      let chosen := choose acc.1 race_idx
      (acc.1.set chosen (acc.1.getD chosen 0 + 1), acc.2 ++ [chosen]))
    (List.replicate team_size 0, [])

/-- One team's pre-allocated position schedule: simple rotation for the
primary team, the `all_equal` mapping when the team size divides the race
count, the weighted allocation otherwise. -/
def positionSchedule (primary_team_index primary_team_size : ℕ)
    (primary_players : List PlayerWithElo)
    (team_idx : ℕ) (team_players : List PlayerWithElo) (num_races : ℕ) :
    List ℕ :=
  let team_size := team_players.length
  let races_for_team := num_races
  if team_idx = primary_team_index then
    (List.range races_for_team).map (fun i => i % team_size)
  else
    let uses_per_position := races_for_team / team_size
    let extra_uses := races_for_team % team_size
    if extra_uses = 0 then
      (scheduleFold
        (chooseEqualPos team_size primary_team_size uses_per_position)
        team_size races_for_team).2
    else
      (scheduleFold
        (chooseWeightedPos team_size primary_team_size primary_players
          team_players
          ((List.range team_size).map
            (fun i => uses_per_position + if i < extra_uses then 1 else 0)))
        team_size races_for_team).2

/-- The per-team state: team number with its players sorted by rating
descending (stable). -/
def buildTeamState (teams : List Team) : List (ℤ × List PlayerWithElo) :=
  teams.map (fun team =>
    (team.team_num,
      (team.players.map (fun p => (⟨p.id, p.elo_rating⟩ : PlayerWithElo))).mergeSort
        (fun a b => b.elo ≤ a.elo)))

/-- `max_by_key` over the enumerated team state (Rust returns the *last*
maximum): the index of a largest team. -/
def primaryTeamIndex (team_state : List (ℤ × List PlayerWithElo)) : Option ℕ :=
  (pickFold (fun y x => y.2.2.length ≤ x.2.2.length) team_state.enum).map
    Prod.fst

/-- `allocate_races`: one `RaceAllocation` per race, with the player at each
team's pre-scheduled position index. -/
def allocate_races (_players : List Player) (teams : List Team)
    (num_races : ℕ) (_players_per_race : ℕ) :
    Except String (List RaceAllocation) :=
  let team_state := buildTeamState teams
  match primaryTeamIndex team_state with
  | none => .error "No teams available"
  | some primary_team_index =>
    let primary_players := (team_state.getD primary_team_index default).2
    let primary_team_size := primary_players.length
    let team_position_schedules := team_state.enum.map
      (fun x => positionSchedule primary_team_index primary_team_size
        primary_players x.1 x.2.2 num_races)
    .ok ((List.range num_races).map (fun (race_num : ℕ) =>
      { race_number := (race_num : ℤ) + 1
        player_ids := (team_state.zip team_position_schedules).map
          (fun x => (x.1.2.getD ((x.2).getD race_num 0) default).id) }))

/-! ### Supporting lemmas for race allocation -/

lemma pickFold_go {α : Type} (P : α → α → Prop) [DecidableRel P] :
    ∀ (t : List α) (c : α), ∃ w,
      (t.foldl
        (fun acc x =>
          match acc with
          | none => some x
          | some y => if P y x then some x else acc)
        (some c)) = some w ∧
      (w = c ∨ w ∈ t) := by
  intro t
  induction t with
  | nil => intro c; exact ⟨c, rfl, Or.inl rfl⟩
  | cons x t ih =>
    intro c
    rw [List.foldl_cons]
    by_cases hx : P c x
    · simp only [if_pos hx]
      obtain ⟨w, hw, hcase⟩ := ih x
      refine ⟨w, hw, Or.inr ?_⟩
      rcases hcase with rfl | hmem
      · exact List.mem_cons_self _ _
      · exact List.mem_cons_of_mem _ hmem
    · simp only [if_neg hx]
      obtain ⟨w, hw, hcase⟩ := ih c
      refine ⟨w, hw, ?_⟩
      rcases hcase with rfl | hmem
      · exact Or.inl rfl
      · exact Or.inr (List.mem_cons_of_mem _ hmem)

lemma pickFold_mem {α : Type} (P : α → α → Prop) [DecidableRel P]
    {l : List α} (hne : l ≠ []) :
    ∃ w, pickFold P l = some w ∧ w ∈ l := by
  rcases l with _ | ⟨a, t⟩
  · exact absurd rfl hne
  rw [pickFold, List.foldl_cons]
  obtain ⟨w, hw, hcase⟩ := pickFold_go P t a
  refine ⟨w, hw, ?_⟩
  rcases hcase with rfl | hmem
  · exact List.mem_cons_self _ _
  · exact List.mem_cons_of_mem _ hmem

lemma map_getD_range_eq {l : List ℕ} {ts : ℕ} (hlen : l.length = ts) :
    (List.range ts).map (fun p => l.getD p 0) = l := by
  apply List.ext_getElem (by simp [hlen])
  intro n h₁ h₂
  rw [List.getElem_map, List.getElem_range]
  exact List.getD_eq_getElem l 0 h₂

lemma schedule_candidates_ne_nil {used target : List ℕ} {ts : ℕ}
    (hu : used.length = ts) (ht : target.length = ts)
    (hsum : used.sum < target.sum) :
    (List.range ts).filter (fun p => used.getD p 0 < target.getD p 0) ≠ [] := by
  intro hnil
  have hall := List.filter_eq_nil_iff.mp hnil
  have hge : ∀ i, i < ts → target.getD i 0 ≤ used.getD i 0 := by
    intro i hi
    have := hall i (List.mem_range.mpr hi)
    simp only [decide_eq_true_eq] at this
    omega
  have hsle : target.sum ≤ used.sum := by
    rw [← map_getD_range_eq hu, ← map_getD_range_eq ht]
    apply sum_le_of_entrywise_le
    · simp
    · intro i h₁ h₂
      rw [List.getElem_map, List.getElem_map, List.getElem_range]
      have hi : i < ts := by simpa using h₁
      exact hge _ hi
  omega

lemma getD_set_nat (l : List ℕ) (j v i : ℕ) (hj : j < l.length) :
    (l.set j v).getD i 0 = if i = j then v else l.getD i 0 := by
  by_cases hi : i < l.length
  · rw [List.getD_eq_getElem _ 0 (by simpa using hi),
      List.getElem_set]
    by_cases hij : i = j
    · rw [if_pos hij, if_pos (by omega)]
    · rw [if_neg hij, if_neg (by omega), List.getD_eq_getElem _ 0 hi]
  · have hlen : (l.set j v).length = l.length := List.length_set l j v
    rw [if_neg (by omega)]
    rw [List.getD_eq_default _ 0 (by omega), List.getD_eq_default _ 0 (by omega)]

lemma scheduleFold_go (choose : List ℕ → ℕ → ℕ) (ts R : ℕ)
    (target : List ℕ)
    (hchoose : ∀ (used : List ℕ) (race_idx : ℕ),
      used.length = ts →
      (∀ i, i < ts → used.getD i 0 ≤ target.getD i 0) →
      used.sum < R →
      choose used race_idx < ts ∧
        used.getD (choose used race_idx) 0
          < target.getD (choose used race_idx) 0) :
    ∀ k, k ≤ R →
      ((List.range k).foldl
        (fun acc race_idx =>
          let chosen := choose acc.1 race_idx
          (acc.1.set chosen (acc.1.getD chosen 0 + 1), acc.2 ++ [chosen]))
        (List.replicate ts 0, [])).1.length = ts ∧
      (∀ i, i < ts →
        ((List.range k).foldl
          (fun acc race_idx =>
            let chosen := choose acc.1 race_idx
            (acc.1.set chosen (acc.1.getD chosen 0 + 1), acc.2 ++ [chosen]))
          (List.replicate ts 0, [])).1.getD i 0 ≤ target.getD i 0) ∧
      ((List.range k).foldl
        (fun acc race_idx =>
          let chosen := choose acc.1 race_idx
          (acc.1.set chosen (acc.1.getD chosen 0 + 1), acc.2 ++ [chosen]))
        (List.replicate ts 0, [])).1.sum = k ∧
      ((List.range k).foldl
        (fun acc race_idx =>
          let chosen := choose acc.1 race_idx
          (acc.1.set chosen (acc.1.getD chosen 0 + 1), acc.2 ++ [chosen]))
        (List.replicate ts 0, [])).2.length = k ∧
      (∀ x ∈ ((List.range k).foldl
        (fun acc race_idx =>
          let chosen := choose acc.1 race_idx
          (acc.1.set chosen (acc.1.getD chosen 0 + 1), acc.2 ++ [chosen]))
        (List.replicate ts 0, [])).2, x < ts) ∧
      (∀ p, ((List.range k).foldl
        (fun acc race_idx =>
          let chosen := choose acc.1 race_idx
          (acc.1.set chosen (acc.1.getD chosen 0 + 1), acc.2 ++ [chosen]))
        (List.replicate ts 0, [])).2.count p
        = ((List.range k).foldl
          (fun acc race_idx =>
            let chosen := choose acc.1 race_idx
            (acc.1.set chosen (acc.1.getD chosen 0 + 1), acc.2 ++ [chosen]))
          (List.replicate ts 0, [])).1.getD p 0) := by
  intro k
  induction k with
  | zero =>
    intro _
    refine ⟨by simp, ?_, by simp, by simp, by simp, ?_⟩
    · intro i hi
      simp only [List.range_zero, List.foldl_nil]
      rw [List.getD_eq_getElem _ 0 (by simp; omega)]
      simp
    · intro p
      simp only [List.range_zero, List.foldl_nil, List.count_nil]
      by_cases hp : p < ts
      · rw [List.getD_eq_getElem _ 0 (by simpa using hp)]
        simp
      · rw [List.getD_eq_default _ 0 (by simpa using hp)]
  | succ k ih =>
    intro hk
    obtain ⟨hlen, hbound, hsum, hslen, hsmem, hcount⟩ := ih (by omega)
    rw [List.range_succ, List.foldl_append, List.foldl_cons, List.foldl_nil]
    set st := ((List.range k).foldl
      (fun acc race_idx =>
        let chosen := choose acc.1 race_idx
        (acc.1.set chosen (acc.1.getD chosen 0 + 1), acc.2 ++ [chosen]))
      (List.replicate ts 0, [])) with hst
    obtain ⟨hcl, hcb⟩ := hchoose st.1 k hlen hbound (by omega)
    set ch := choose st.1 k with hch
    have hchlen : ch < st.1.length := by rw [hlen]; exact hcl
    refine ⟨?_, ?_, ?_, ?_, ?_, ?_⟩
    · simp only
      rw [List.length_set]
      exact hlen
    · intro i hi
      simp only
      rw [getD_set_nat st.1 ch _ i hchlen]
      by_cases hich : i = ch
      · rw [if_pos hich]
        subst hich
        omega
      · rw [if_neg hich]
        exact hbound i hi
    · simp only
      have := sum_set_nat st.1 ch (hchlen) (st.1.getD ch 0 + 1)
      rw [List.getD_eq_getElem _ 0 hchlen] at this ⊢
      omega
    · simp only
      rw [List.length_append, hslen]
      simp
    · intro x hx
      simp only at hx
      rcases List.mem_append.mp hx with hx | hx
      · exact hsmem x hx
      · rw [List.mem_singleton] at hx
        subst hx
        exact hcl
    · intro p
      simp only
      rw [List.count_append, hcount p, getD_set_nat st.1 ch _ p hchlen]
      by_cases hpch : p = ch
      · rw [if_pos hpch]
        subst hpch
        simp
      · rw [if_neg hpch]
        have : (ch == p) = false := beq_false_of_ne (fun h => hpch h.symm)
        simp [List.count_singleton, this]

/-- The schedule fold distributes exactly `target` uses over the positions:
every emitted index is in range and index `p` appears exactly `target[p]`
times. -/
lemma scheduleFold_spec (choose : List ℕ → ℕ → ℕ) (ts R : ℕ)
    (target : List ℕ) (htlen : target.length = ts)
    (htsum : target.sum = R)
    (hchoose : ∀ (used : List ℕ) (race_idx : ℕ),
      used.length = ts →
      (∀ i, i < ts → used.getD i 0 ≤ target.getD i 0) →
      used.sum < R →
      choose used race_idx < ts ∧
        used.getD (choose used race_idx) 0
          < target.getD (choose used race_idx) 0) :
    (scheduleFold choose ts R).2.length = R ∧
    (∀ x ∈ (scheduleFold choose ts R).2, x < ts) ∧
    (∀ p, (scheduleFold choose ts R).2.count p = target.getD p 0) := by
  obtain ⟨hlen, hbound, hsum, hslen, hsmem, hcount⟩ :=
    scheduleFold_go choose ts R target hchoose R (le_refl R)
  rw [scheduleFold]
  refine ⟨hslen, hsmem, ?_⟩
  have hused : ((List.range R).foldl
      (fun acc race_idx =>
        let chosen := choose acc.1 race_idx
        (acc.1.set chosen (acc.1.getD chosen 0 + 1), acc.2 ++ [chosen]))
      (List.replicate ts 0, [])).1 = target := by
    apply eq_of_entrywise_le_of_sum_eq _ _ (by rw [hlen, htlen])
    · intro i h₁ h₂
      have hi : i < ts := by rw [hlen] at h₁; exact h₁
      have := hbound i hi
      rw [List.getD_eq_getElem _ 0 h₁, List.getD_eq_getElem _ 0 h₂] at this
      exact this
    · rw [hsum, htsum]
  intro p
  rw [hcount p, hused]

lemma minByKeyFirstWith_mem {κ : Type} [LinearOrder κ] (key : ℕ → κ)
    {l : List ℕ} (hne : l ≠ []) :
    ∃ w, minByKeyFirstWith key l = some w ∧ w ∈ l := by
  rw [minByKeyFirstWith]
  exact pickFold_mem _ hne

lemma minByKeyFirstWith_getD_mem {κ : Type} [LinearOrder κ] (key : ℕ → κ)
    {l : List ℕ} (hne : l ≠ []) :
    (minByKeyFirstWith key l).getD 0 ∈ l := by
  obtain ⟨w, hw, hm⟩ := minByKeyFirstWith_mem key hne
  rw [hw]
  exact hm

lemma getD_replicate_pos (u ts i : ℕ) (hi : i < ts) :
    (List.replicate ts u).getD i 0 = u := by
  rw [List.getD_eq_getElem _ 0 (by simpa using hi)]
  simp

lemma chooseEqualPos_spec (ts pts R : ℕ) (hts : 0 < ts) (hpts : 0 < pts)
    (hdvd : R % ts = 0) :
    ∀ (used : List ℕ) (race_idx : ℕ),
      used.length = ts →
      (∀ i, i < ts → used.getD i 0 ≤ (List.replicate ts (R / ts)).getD i 0) →
      used.sum < R →
      chooseEqualPos ts pts (R / ts) used race_idx < ts ∧
        used.getD (chooseEqualPos ts pts (R / ts) used race_idx) 0
          < (List.replicate ts (R / ts)).getD
              (chooseEqualPos ts pts (R / ts) used race_idx) 0 := by
  intro used race_idx hlen hbound hsum
  have hrsum : (List.replicate ts (R / ts)).sum = R := by
    rw [List.sum_replicate, smul_eq_mul]
    exact Nat.mul_div_cancel' (Nat.dvd_of_mod_eq_zero hdvd)
  have hne : (List.range ts).filter
      (fun p => used.getD p 0 < (List.replicate ts (R / ts)).getD p 0) ≠ [] :=
    schedule_candidates_ne_nil hlen (by simp) (by rw [hrsum]; exact hsum)
  rw [chooseEqualPos]
  by_cases hid : used.getD (race_idx % pts * ts / pts) 0 < R / ts
  · rw [if_pos hid]
    have hideal : race_idx % pts * ts / pts < ts := by
      rw [Nat.div_lt_iff_lt_mul hpts]
      calc race_idx % pts * ts < pts * ts :=
            (Nat.mul_lt_mul_right hts).mpr (Nat.mod_lt _ hpts)
        _ = ts * pts := Nat.mul_comm _ _
    exact ⟨hideal, by rw [getD_replicate_pos _ _ _ hideal]; exact hid⟩
  · rw [if_neg hid]
    have hne' : (List.range ts).filter
        (fun p => used.getD p 0 < R / ts) ≠ [] := by
      intro hnil
      apply hne
      rw [← hnil]
      apply List.filter_congr
      intro p hp
      rw [getD_replicate_pos _ _ _ (List.mem_range.mp hp)]
    have hwm := minByKeyFirstWith_getD_mem
      (fun p => used.getD p 0) hne'
    rw [List.mem_filter] at hwm
    obtain ⟨hwr, hwlt⟩ := hwm
    have hwts := List.mem_range.mp hwr
    refine ⟨hwts, ?_⟩
    rw [getD_replicate_pos _ _ _ hwts]
    exact of_decide_eq_true hwlt

lemma chooseWeightedPos_spec (ts pts R : ℕ) (hts : 0 < ts)
    (primary_players team_players : List PlayerWithElo) :
    ∀ (used : List ℕ) (race_idx : ℕ),
      used.length = ts →
      (∀ i, i < ts → used.getD i 0
        ≤ (((List.range ts).map
            (fun i => R / ts + if i < R % ts then 1 else 0))).getD i 0) →
      used.sum < R →
      chooseWeightedPos ts pts primary_players team_players
          ((List.range ts).map
            (fun i => R / ts + if i < R % ts then 1 else 0)) used race_idx
        < ts ∧
        used.getD (chooseWeightedPos ts pts primary_players team_players
            ((List.range ts).map
              (fun i => R / ts + if i < R % ts then 1 else 0)) used race_idx) 0
          < (((List.range ts).map
              (fun i => R / ts + if i < R % ts then 1 else 0))).getD
            (chooseWeightedPos ts pts primary_players team_players
              ((List.range ts).map
                (fun i => R / ts + if i < R % ts then 1 else 0)) used race_idx)
            0 := by
  intro used race_idx hlen hbound hsum
  have htsum : (((List.range ts).map
      (fun i => R / ts + if i < R % ts then 1 else 0))).sum = R := by
    have h1 : ∀ i : ℕ, R / ts + (if i < R % ts then 1 else 0)
        = if i < R % ts then R / ts + 1 else R / ts := by
      intro i
      by_cases h : i < R % ts <;> simp [h]
    have h2 : ((List.range ts).map
        (fun i => R / ts + if i < R % ts then 1 else 0))
        = ((List.range ts).map
          (fun i => if i < R % ts then R / ts + 1 else R / ts)) := by
      apply List.map_congr_left
      intro i _
      exact h1 i
    rw [h2, range_map_ite_sum, min_eq_left (le_of_lt (Nat.mod_lt _ hts))]
    calc R / ts * ts + R % ts = ts * (R / ts) + R % ts := by
          rw [Nat.mul_comm]
      _ = R := Nat.div_add_mod R ts
  have hne : (List.range ts).filter
      (fun p => used.getD p 0 < (((List.range ts).map
        (fun i => R / ts + if i < R % ts then 1 else 0))).getD p 0) ≠ [] :=
    schedule_candidates_ne_nil hlen (by simp) (by rw [htsum]; exact hsum)
  rw [chooseWeightedPos]
  have hwm := minByKeyFirstWith_getD_mem
    (fun pos_idx =>
      |(team_players.getD pos_idx default).elo -
          (primary_players.getD (race_idx % pts) default).elo|
        + ((used.getD pos_idx 0 : ℤ)) * 5000) hne
  rw [List.mem_filter] at hwm
  obtain ⟨hwr, hwlt⟩ := hwm
  exact ⟨List.mem_range.mp hwr, of_decide_eq_true hwlt⟩

lemma count_mod_range (ts : ℕ) (hts : 0 < ts) (j : ℕ) (hj : j < ts) :
    ∀ R, ((List.range R).map (fun i => i % ts)).count j
      = R / ts + if j < R % ts then 1 else 0 := by
  intro R
  induction R with
  | zero => simp [Nat.zero_div, Nat.zero_mod]
  | succ R ih =>
    rw [List.range_succ, List.map_append, List.count_append, ih]
    have hq := Nat.div_add_mod R ts
    have hs : R % ts < ts := Nat.mod_lt _ hts
    have hsingle : (List.map (fun i => i % ts) [R]).count j
        = if R % ts = j then 1 else 0 := by
      simp only [List.map_cons, List.map_nil]
      by_cases h : R % ts = j
      · rw [if_pos h]
        simp [h]
      · rw [if_neg h]
        simp [List.count_singleton, beq_false_of_ne h]
    rw [hsingle]
    rcases Nat.lt_or_ge (R % ts + 1) ts with hlt | hge
    · have hun1 : (R + 1) % ts = R % ts + 1 := by
        have h1 : ts * (R / ts) + (R % ts + 1) = R + 1 := by omega
        conv_lhs => rw [← h1]
        rw [Nat.mul_add_mod]
        exact Nat.mod_eq_of_lt hlt
      have hun2 : (R + 1) / ts = R / ts := by
        have h1 : ts * (R / ts) + (R % ts + 1) = R + 1 := by omega
        conv_lhs => rw [← h1]
        rw [Nat.mul_add_div hts, Nat.div_eq_of_lt hlt]
        omega
      rw [hun1, hun2]
      rcases Nat.lt_trichotomy j (R % ts) with h3 | h3 | h3
      · rw [if_pos h3, if_neg (by omega), if_pos (by omega)]
      · rw [if_neg (by omega), if_pos h3.symm, if_pos (by omega)]
      · rw [if_neg (by omega), if_neg (by omega), if_neg (by omega)]
    · have hts2 : R % ts + 1 = ts := by omega
      have hun1 : (R + 1) % ts = 0 := by
        have h1 : ts * (R / ts + 1) + 0 = R + 1 := by
          rw [Nat.mul_add]
          omega
        conv_lhs => rw [← h1]
        rw [Nat.mul_add_mod]
        exact Nat.zero_mod ts
      have hun2 : (R + 1) / ts = R / ts + 1 := by
        have h1 : ts * (R / ts + 1) = R + 1 := by
          rw [Nat.mul_add]
          omega
        conv_lhs => rw [← h1]
        rw [Nat.mul_div_cancel_left _ hts]
      rw [hun1, hun2]
      rcases Nat.lt_trichotomy j (R % ts) with h3 | h3 | h3
      · rw [if_pos h3, if_neg (by omega), if_neg (by omega)]
      · rw [if_neg (by omega), if_pos h3.symm, if_neg (by omega)]
      · omega

lemma weighted_target_sum (ts R : ℕ) (hts : 0 < ts) :
    (((List.range ts).map (fun i => R / ts + if i < R % ts then 1 else 0))).sum
      = R := by
  have h2 : ((List.range ts).map
      (fun i => R / ts + if i < R % ts then 1 else 0))
      = ((List.range ts).map
        (fun i => if i < R % ts then R / ts + 1 else R / ts)) := by
    apply List.map_congr_left
    intro i _
    by_cases h : i < R % ts <;> simp [h]
  rw [h2, range_map_ite_sum, min_eq_left (le_of_lt (Nat.mod_lt _ hts))]
  calc R / ts * ts + R % ts = ts * (R / ts) + R % ts := by rw [Nat.mul_comm]
    _ = R := Nat.div_add_mod R ts

lemma weighted_target_getD (ts R p : ℕ) (hp : p < ts) :
    (((List.range ts).map
      (fun i => R / ts + if i < R % ts then 1 else 0))).getD p 0
      = R / ts + if p < R % ts then 1 else 0 := by
  rw [List.getD_eq_getElem _ 0 (by simpa using hp)]
  simp

/-- Every team's pre-allocated position schedule has one entry per race, all
in range, and uses any two positions a number of times differing by at most
one. -/
lemma positionSchedule_spec (primary_team_index pts : ℕ)
    (primary_players team_players : List PlayerWithElo) (team_idx R : ℕ)
    (hts : 0 < team_players.length) (hpts : 0 < pts) :
    (positionSchedule primary_team_index pts primary_players team_idx
      team_players R).length = R ∧
    (∀ x ∈ positionSchedule primary_team_index pts primary_players team_idx
      team_players R, x < team_players.length) ∧
    (∀ p q, p < team_players.length → q < team_players.length →
      (positionSchedule primary_team_index pts primary_players team_idx
        team_players R).count p
        ≤ (positionSchedule primary_team_index pts primary_players team_idx
          team_players R).count q + 1) := by
  rw [positionSchedule]
  by_cases hpt : team_idx = primary_team_index
  · rw [if_pos hpt]
    refine ⟨by simp, ?_, ?_⟩
    · intro x hx
      rcases List.mem_map.mp hx with ⟨i, _, rfl⟩
      exact Nat.mod_lt _ hts
    · intro p q hp hq
      rw [count_mod_range _ hts p hp R, count_mod_range _ hts q hq R]
      by_cases h1 : p < R % team_players.length <;>
        by_cases h2 : q < R % team_players.length <;>
        simp [h1, h2] <;> omega
  · rw [if_neg hpt]
    by_cases hex : R % team_players.length = 0
    · rw [if_pos hex]
      obtain ⟨hlen, hmem, hcount⟩ := scheduleFold_spec
        (chooseEqualPos team_players.length pts (R / team_players.length))
        team_players.length R
        (List.replicate team_players.length (R / team_players.length))
        (by simp)
        (by
          rw [List.sum_replicate, smul_eq_mul]
          exact Nat.mul_div_cancel' (Nat.dvd_of_mod_eq_zero hex))
        (chooseEqualPos_spec team_players.length pts R hts hpts hex)
      refine ⟨hlen, hmem, ?_⟩
      intro p q hp hq
      rw [hcount p, hcount q, getD_replicate_pos _ _ _ hp,
        getD_replicate_pos _ _ _ hq]
      omega
    · rw [if_neg hex]
      obtain ⟨hlen, hmem, hcount⟩ := scheduleFold_spec
        (chooseWeightedPos team_players.length pts primary_players
          team_players
          ((List.range team_players.length).map
            (fun i => R / team_players.length
              + if i < R % team_players.length then 1 else 0)))
        team_players.length R
        ((List.range team_players.length).map
          (fun i => R / team_players.length
            + if i < R % team_players.length then 1 else 0))
        (by simp)
        (weighted_target_sum team_players.length R hts)
        (chooseWeightedPos_spec team_players.length pts R hts
          primary_players team_players)
      refine ⟨hlen, hmem, ?_⟩
      intro p q hp hq
      rw [hcount p, hcount q, weighted_target_getD _ _ _ hp,
        weighted_target_getD _ _ _ hq]
      by_cases h1 : p < R % team_players.length <;>
        by_cases h2 : q < R % team_players.length <;>
        simp [h1, h2] <;> omega

lemma buildTeamState_length (teams : List Team) :
    (buildTeamState teams).length = teams.length := by
  simp [buildTeamState]

lemma buildTeamState_getElem (teams : List Team) (k : ℕ)
    (h : k < (buildTeamState teams).length) (hk : k < teams.length) :
    (buildTeamState teams)[k]
      = ((teams[k]).team_num,
        ((teams[k]).players.map
            (fun p => (⟨p.id, p.elo_rating⟩ : PlayerWithElo))).mergeSort
          (fun a b => b.elo ≤ a.elo)) := by
  simp only [buildTeamState, List.getElem_map]

lemma buildTeamState_snd_length (teams : List Team) (k : ℕ)
    (h : k < (buildTeamState teams).length) (hk : k < teams.length) :
    ((buildTeamState teams)[k]).2.length = (teams[k]).players.length := by
  rw [buildTeamState_getElem teams k h hk]
  rw [List.length_mergeSort, List.length_map]

lemma buildTeamState_snd_mem (teams : List Team) (k : ℕ)
    (h : k < (buildTeamState teams).length) (hk : k < teams.length)
    (x : PlayerWithElo) (hx : x ∈ ((buildTeamState teams)[k]).2) :
    ∃ p ∈ (teams[k]).players, x = ⟨p.id, p.elo_rating⟩ := by
  rw [buildTeamState_getElem teams k h hk] at hx
  have hperm := List.mergeSort_perm
    ((teams[k]).players.map (fun p => (⟨p.id, p.elo_rating⟩ : PlayerWithElo)))
    (fun a b => b.elo ≤ a.elo)
  have hx2 := hperm.mem_iff.mp hx
  rcases List.mem_map.mp hx2 with ⟨p, hp, rfl⟩
  exact ⟨p, hp, rfl⟩

lemma primaryTeamIndex_lt {teams : List Team} (hne : teams ≠ []) :
    ∃ pti, primaryTeamIndex (buildTeamState teams) = some pti ∧
      pti < teams.length := by
  have hlen : (buildTeamState teams).enum.length = teams.length := by
    rw [List.enum_length, buildTeamState_length]
  have henil : (buildTeamState teams).enum ≠ [] := by
    intro hcon
    apply hne
    have h0 : teams.length = 0 := by rw [← hlen, hcon]; rfl
    exact List.length_eq_zero.mp h0
  obtain ⟨w, hw, hm⟩ := pickFold_mem
    (fun y x => y.2.2.length ≤ x.2.2.length) henil
  refine ⟨w.1, ?_, ?_⟩
  · rw [primaryTeamIndex, hw]
    rfl
  · obtain ⟨i, hi, hEq⟩ := List.mem_iff_getElem.mp hm
    rw [List.getElem_enum] at hEq
    have hw1 : w.1 = i := by rw [← hEq]
    rw [hw1, ← hlen]
    exact hi

/-- **C7.** For a non-empty list of non-empty teams and any round count `R`,
`allocate_races` succeeds with exactly `R` lineups; each lineup has one entry
per team, the `k`-th entry being the id of a member of team `k`; and each
team follows a fixed position schedule over its rating-sorted roster in which
any two positions (hence any two distinct roster slots) are used numbers of
times differing by at most one. -/
theorem allocate_races_correct (players : List Player) (teams : List Team)
    (R ppr : ℕ) (hne : teams ≠ [])
    (hteams : ∀ t ∈ teams, t.players ≠ []) :
    ∃ allocs, allocate_races players teams R ppr = Except.ok allocs ∧
      allocs.length = R ∧
      (∀ a ∈ allocs, a.player_ids.length = teams.length) ∧
      (∀ r (hr : r < allocs.length) k (hk : k < teams.length)
          (hk' : k < (allocs[r]).player_ids.length),
        (allocs[r]).player_ids[k] ∈ (teams[k]).players.map (fun p => p.id)) ∧
      (∀ k (hk : k < teams.length) (hk2 : k < (buildTeamState teams).length),
        ∃ sched : List ℕ,
          sched.length = R ∧
          (∀ x ∈ sched, x < (teams[k]).players.length) ∧
          (∀ p q, p < (teams[k]).players.length →
            q < (teams[k]).players.length →
            sched.count p ≤ sched.count q + 1) ∧
          (∀ r (hr : r < allocs.length)
              (hk' : k < (allocs[r]).player_ids.length),
            (allocs[r]).player_ids[k]
              = (((buildTeamState teams)[k]).2.getD (sched.getD r 0)
                  default).id)) := by
  obtain ⟨pti, hpti, hptilt⟩ := primaryTeamIndex_lt hne
  have hbl := buildTeamState_length teams
  have hpti2 : pti < (buildTeamState teams).length := by rw [hbl]; exact hptilt
  have hppD : (buildTeamState teams).getD pti default
      = (buildTeamState teams)[pti] := List.getD_eq_getElem _ _ hpti2
  set pp : List PlayerWithElo := ((buildTeamState teams).getD pti default).2
    with hppdef
  have hptspos : 0 < pp.length := by
    rw [hppdef, hppD, buildTeamState_snd_length teams pti hpti2 hptilt]
    exact List.length_pos.mpr (hteams (teams[pti]) (List.getElem_mem _))
  have htsk : ∀ k (hb : k < (buildTeamState teams).length),
      k < teams.length → 0 < ((buildTeamState teams)[k]).2.length := by
    intro k hk2 hk
    rw [buildTeamState_snd_length teams k hk2 hk]
    exact List.length_pos.mpr (hteams (teams[k]) (List.getElem_mem _))
  set E : List RaceAllocation := (List.range R).map (fun (race_num : ℕ) =>
    ({ race_number := (race_num : ℤ) + 1,
       player_ids := ((buildTeamState teams).zip
         ((buildTeamState teams).enum.map
           (fun x => positionSchedule pti pp.length pp x.1 x.2.2 R))).map
         (fun x => (x.1.2.getD ((x.2).getD race_num 0) default).id) } :
      RaceAllocation)) with hE
  have hres : allocate_races players teams R ppr = Except.ok E := by
    rw [hE, hppdef]
    simp only [allocate_races, hpti]
  have hElen : E.length = R := by rw [hE]; simp
  have hpids : ∀ r, r < R →
      ∃ hre : r < E.length,
      E[r].player_ids = ((buildTeamState teams).zip
        ((buildTeamState teams).enum.map
          (fun x => positionSchedule pti pp.length pp x.1 x.2.2 R))).map
        (fun x => (x.1.2.getD ((x.2).getD r 0) default).id) := by
    intro r hrr
    have hre : r < E.length := by rw [hElen]; exact hrr
    refine ⟨hre, ?_⟩
    have h2 := List.getElem_of_eq hE (i := r) hre
    rw [h2, List.getElem_map, List.getElem_range]
  have hentry : ∀ r, r < R → ∀ k, k < teams.length →
      ∀ (hk2 : k < (buildTeamState teams).length)
        (hre : r < E.length) (hke : k < E[r].player_ids.length),
      E[r].player_ids[k]
        = (((buildTeamState teams)[k]).2.getD
            ((positionSchedule pti pp.length pp k
              ((buildTeamState teams)[k]).2 R).getD r 0) default).id := by
    intro r hrr k hk hk2 hre hke
    obtain ⟨hre2, hp⟩ := hpids r hrr
    have hkz : k < (((buildTeamState teams).zip
        ((buildTeamState teams).enum.map
          (fun x => positionSchedule pti pp.length pp x.1 x.2.2 R))).map
        (fun x => (x.1.2.getD ((x.2).getD r 0) default).id)).length := by
      rw [List.length_map, List.length_zip, List.length_map, List.enum_length]
      omega
    have h3 := List.getElem_of_eq hp (i := k) hke
    rw [h3]
    simp only [List.getElem_map, List.getElem_zip, List.getElem_enum]
  refine ⟨E, hres, hElen, ?_, ?_, ?_⟩
  · intro a ha
    rw [hE] at ha
    rcases List.mem_map.mp ha with ⟨r, _, rfl⟩
    simp only [List.length_map, List.length_zip, List.enum_length, hbl]
    omega
  · intro r hr k hk hke
    have hrr : r < R := by rw [← hElen]; exact hr
    have hk2 : k < (buildTeamState teams).length := by rw [hbl]; exact hk
    rw [hentry r hrr k hk hk2 hr hke]
    obtain ⟨hslen, hsmem, _⟩ := positionSchedule_spec pti pp.length pp
      ((buildTeamState teams)[k]).2 k R (htsk k hk2 hk) hptspos
    have hposmem : (positionSchedule pti pp.length pp k
        ((buildTeamState teams)[k]).2 R).getD r 0
        ∈ positionSchedule pti pp.length pp k
          ((buildTeamState teams)[k]).2 R := by
      rw [List.getD_eq_getElem _ 0 (by rw [hslen]; exact hrr)]
      exact List.getElem_mem _
    have hposlt := hsmem _ hposmem
    rw [List.getD_eq_getElem _ default hposlt]
    obtain ⟨p, hp, hpe⟩ := buildTeamState_snd_mem teams k hk2 hk
      (((buildTeamState teams)[k]).2[(positionSchedule pti pp.length pp k
        ((buildTeamState teams)[k]).2 R).getD r 0]) (List.getElem_mem _)
    rw [hpe]
    exact List.mem_map.mpr ⟨p, hp, rfl⟩
  · intro k hk hk2
    obtain ⟨hslen, hsmem, hsbal⟩ := positionSchedule_spec pti pp.length pp
      ((buildTeamState teams)[k]).2 k R (htsk k hk2 hk) hptspos
    refine ⟨positionSchedule pti pp.length pp k
      ((buildTeamState teams)[k]).2 R, hslen, ?_, ?_, ?_⟩
    · intro x hx
      rw [← buildTeamState_snd_length teams k hk2 hk]
      exact hsmem x hx
    · intro p q hp hq
      exact hsbal p q
        (by rw [buildTeamState_snd_length teams k hk2 hk]; exact hp)
        (by rw [buildTeamState_snd_length teams k hk2 hk]; exact hq)
    · intro r hr hke
      have hrr : r < R := by rw [← hElen]; exact hr
      exact hentry r hrr k hk hk2 hr hke

/-- Witness for `allocate_races_correct`: two singleton teams over two
races. -/
theorem allocate_races_correct_witness :
    ∃ allocs, allocate_races []
        [⟨1, [⟨1, 1200⟩], 1200⟩, ⟨2, [⟨2, 1100⟩], 1100⟩] 2 2
        = Except.ok allocs ∧ allocs.length = 2 := by
  obtain ⟨allocs, h1, h2, -, -⟩ := allocate_races_correct []
    [⟨1, [⟨1, 1200⟩], 1200⟩, ⟨2, [⟨2, 1100⟩], 1100⟩] 2 2
    (by decide) (by decide)
  exact ⟨allocs, h1, h2⟩

/-! ### Result recording: the database model

The recording path (`graphql/rounds/mutations.rs` guards composed with
`services/result_recording.rs`) is embedded over an explicit database state.
Each table the workflow touches is a list of rows; a transaction is a pure
function on the state whose error exits return the state from the
transaction's start (rollback). Database-level failures are injected through
two flags: one for the tournament-rating fetch transaction, one for the main
recording transaction; a failed transaction leaves the state it began with.
The rating engine (`calculate_elo_changes`, floating-point) is passed as a
function parameter, exactly as the orchestrator calls it between the two
transactions. -/

/-- `scoring::position_to_points`. -/
def position_to_points (position : ℤ) : ℤ :=
  if position = 1 then 15
  else if position = 2 then 12
  else if position = 3 then 10
  else if position = 4 then 9
  else if position = 5 then 8
  else if position = 6 then 7
  else if position = 7 then 6
  else if position = 8 then 5
  else if position = 9 then 4
  else if position = 10 then 3
  else if position = 11 then 2
  else if position = 12 then 1
  else 0

structure MatchRec where
  id : ℕ
  group_id : ℕ
  tournament_id : ℕ
  completed : Bool
deriving DecidableEq, Repr, Inhabited

structure RoundRow where
  match_id : ℕ
  round_number : ℕ
  completed : Bool
deriving DecidableEq, Repr

structure RoundPlayerRow where
  match_id : ℕ
  round_number : ℕ
  player_id : ℕ
  team_id : ℕ
deriving DecidableEq, Repr

structure RaceScoreRow where
  group_id : ℕ
  match_id : ℕ
  round_number : ℕ
  player_id : ℕ
  position : ℤ
  all_time_elo_change : ℤ
  all_time_elo_after : ℤ
  tournament_elo_change : ℤ
  tournament_elo_after : ℤ
deriving DecidableEq, Repr

structure ContributionRow where
  match_id : ℕ
  round_number : ℕ
  source_player_id : ℕ
  beneficiary_player_id : ℕ
  source_tournament_elo_change : ℤ
  contribution_amount : ℤ
deriving DecidableEq, Repr

structure MatchScoreRow where
  match_id : ℕ
  player_id : ℕ
  position : ℤ
  elo_change : ℤ
  tournament_elo_from_races : ℤ
  tournament_elo_from_contributions : ℤ
  tournament_elo_change : ℤ
deriving DecidableEq, Repr

structure TournamentScoreRow where
  player_id : ℕ
  tournament_id : ℕ
  group_id : ℕ
  elo_rating : ℤ
deriving DecidableEq, Repr

structure TeamMatchScoreRow where
  group_id : ℕ
  match_id : ℕ
  team_id : ℕ
  score : ℚ
deriving DecidableEq, Repr

structure DB where
  players : List (ℕ × ℤ)
  tournamentScores : List TournamentScoreRow
  raceScores : List RaceScoreRow
  matchScores : List MatchScoreRow
  contribs : List ContributionRow
  teamPlayers : List (ℕ × ℕ)
  roundPlayers : List RoundPlayerRow
  rounds : List RoundRow
  matchRows : List MatchRec
  teamMatchScores : List TeamMatchScoreRow
  teams : List (ℕ × ℤ)
deriving DecidableEq, Repr

/-- `Player::find_by_ids`: the player rows whose id is among `ids`. -/
def find_by_ids (players : List (ℕ × ℤ)) (ids : List ℕ) : List (ℕ × ℤ) :=
  players.filter (fun p => p.1 ∈ ids)

/-- `PlayerTournamentScore::get_or_create_batch` inside one transaction:
insert a row at 1200 for each requested player without one for this
tournament (`ON CONFLICT DO NOTHING` also collapses duplicates within the
statement), then return each requested player's tournament rating. -/
def get_or_create_batch (scores : List TournamentScoreRow) (ids : List ℕ)
    (tournament_id group_id : ℕ) : List TournamentScoreRow × List (ℕ × ℤ) :=
  let missing := ids.foldl (fun acc id =>
    if (scores.find? (fun r => r.player_id == id
        && r.tournament_id == tournament_id)).isSome = true ∨ id ∈ acc
    then acc else acc ++ [id]) []
  let scores2 := scores ++ missing.map
    (fun id => (⟨id, tournament_id, group_id, 1200⟩ : TournamentScoreRow))
  (scores2, ids.filterMap (fun id =>
    (scores2.find? (fun r => r.player_id == id
      && r.tournament_id == tournament_id)).map (fun r => (id, r.elo_rating))))

/-- `create_player_results`: each submitted player's current rating from the
map; the first missing player aborts with `Player not found`. -/
def create_player_results :
    List (ℕ × ℤ) → List (ℕ × ℤ) → Except String (List PlayerResult)
  | [], _ => .ok []
  | r :: rest, elos =>
    match elos.lookup r.1 with
    | none => .error "Player not found"
    | some e =>
      match create_player_results rest elos with
      | .error msg => .error msg
      | .ok l => .ok (⟨r.1, r.2, e⟩ :: l)

/-- `acc.entry(k).or_default().push(v)` on an association list. -/
def pushEntry {β : Type} : List (ℕ × List β) → ℕ → β → List (ℕ × List β)
  | [], k, v => [(k, [v])]
  | e :: rest, k, v =>
    if e.1 = k then (e.1, e.2 ++ [v]) :: rest
    else e :: pushEntry rest k v

/-- The `team_to_players` fold over the `(player, team)` pairs. -/
def buildTeamToPlayers (player_to_team : List (ℕ × ℕ)) : List (ℕ × List ℕ) :=
  player_to_team.foldl (fun acc pt => pushEntry acc pt.2 pt.1) []

/-- The per-result loop of `record_results_in_transaction`: one race-score
row per submitted result, aborting on a result with no computed delta. -/
def buildRaceRows (gid mid rn : ℕ)
    (at_changes t_changes : List EloChange) :
    List (ℕ × ℤ) → Except String (List RaceScoreRow)
  | [] => .ok []
  | r :: rest =>
    match at_changes.find? (fun c => c.player_id == r.1),
        t_changes.find? (fun c => c.player_id == r.1) with
    | some ac, some tc =>
      match buildRaceRows gid mid rn at_changes t_changes rest with
      | .error e => .error e
      | .ok l => .ok (⟨gid, mid, rn, r.1, r.2, ac.elo_change, ac.new_elo,
          tc.elo_change, tc.new_elo⟩ :: l)
    | none, _ => .error "Missing all-time ELO change"
    | _, none => .error "Missing tournament ELO change"

/-- `PlayerTournamentScore::update_elo_batch`: set each matching
`(player, tournament)` row's rating. -/
def update_elo_batch (scores : List TournamentScoreRow)
    (updates : List (ℕ × ℕ × ℤ)) : List TournamentScoreRow :=
  scores.map (fun r =>
    match updates.find? (fun u => u.1 == r.player_id
        && u.2.1 == r.tournament_id) with
    | some u => { r with elo_rating := u.2.2 }
    | none => r)

/-- `calculate_player_match_aggregates`: per player of the match's race rows,
the rounded average position, this round's all-time and tournament deltas,
and the match's teammate-contribution total for the player. -/
def calculate_player_match_aggregates (db : DB) (match_id : ℕ)
    (all_time_changes tournament_changes : List EloChange) :
    List (ℕ × ℤ × ℤ × ℤ × ℤ) :=
  let rows := db.raceScores.filter (fun r => r.match_id == match_id)
  let player_positions := rows.foldl
    (fun acc row => pushEntry acc row.player_id row.position) []
  player_positions.map (fun pp =>
    let avg := rustRoundQ ((pp.2.sum : ℚ) / (pp.2.length : ℚ))
    let at_change := ((all_time_changes.find?
      (fun c => c.player_id == pp.1)).map (fun c => c.elo_change)).getD 0
    let t_races := ((tournament_changes.find?
      (fun c => c.player_id == pp.1)).map (fun c => c.elo_change)).getD 0
    let t_contrib := ((db.contribs.filter (fun c => c.match_id == match_id
        && c.beneficiary_player_id == pp.1)).map
      (fun c => c.contribution_amount)).sum
    (pp.1, avg, at_change, t_races, t_contrib))

/-- `check_all_rounds_completed`: no round of the match is incomplete. -/
def check_all_rounds_completed (rounds : List RoundRow) (match_id : ℕ) :
    Bool :=
  (rounds.filter (fun r => r.match_id == match_id && !r.completed)).length == 0

/-- `calculate_team_scores_from_positions`: average points per team over the
match's rounds. -/
def calculate_team_scores_from_positions (race_scores : List (ℕ × ℤ))
    (num_rounds : ℤ) : List (ℕ × ℚ) :=
  let team_points := race_scores.foldl
    (fun acc rs => pushEntry acc rs.1 (position_to_points rs.2)) []
  team_points.map (fun tp => (tp.1, (tp.2.sum : ℚ) / (num_rounds : ℚ)))

/-- `calculate_and_store_team_scores`: join the match's race rows to team
ids, average the points, upsert `team_match_scores` and store the rounded
score on `teams`. -/
def calculate_and_store_team_scores (db : DB) (group_id match_id : ℕ) : DB :=
  let race_scores := db.raceScores.filterMap (fun prs =>
    if prs.match_id = match_id then
      (db.roundPlayers.find? (fun rp => rp.match_id == prs.match_id
        && rp.round_number == prs.round_number
        && rp.player_id == prs.player_id)).map
        (fun rp => (rp.team_id, prs.position))
    else none)
  let num_rounds :=
    ((db.rounds.filter (fun r => r.match_id == match_id)).length : ℤ)
  let team_scores := calculate_team_scores_from_positions race_scores
    num_rounds
  { db with
    teamMatchScores := team_scores.foldl (fun tms ts =>
      if (tms.find? (fun row => row.match_id == match_id
          && row.team_id == ts.1)).isSome = true
      then tms.map (fun row =>
        if row.match_id == match_id && row.team_id == ts.1
        then { row with score := ts.2 } else row)
      else tms ++ [⟨group_id, match_id, ts.1, ts.2⟩]) db.teamMatchScores
    teams := team_scores.foldl (fun tl ts =>
      tl.map (fun t => if t.1 == ts.1 then (t.1, rustRoundQ ts.2) else t))
      db.teams }

/-- `UPDATE rounds SET completed = true WHERE match_id AND round_number`. -/
def markRoundCompleted (rounds : List RoundRow) (mid rn : ℕ) :
    List RoundRow :=
  rounds.map (fun r =>
    if r.match_id == mid && r.round_number == rn then
      { r with completed := true } else r)

/-- `UPDATE matches SET completed = true WHERE id`. -/
def markMatchCompleted (ms : List MatchRec) (mid : ℕ) : List MatchRec :=
  ms.map (fun m => if m.id == mid then { m with completed := true }
    else m)

/-- The teammate-contribution writes: insert the contribution rows, lazily
create the beneficiaries' tournament rows, and apply the adjusted ratings
(base: this round's new tournament rating, else the fetched current rating,
else 1200). -/
def applyContributionWrites (db1 : DB) (group_id match_id round_number : ℕ)
    (tournament_elo_changes : List EloChange) (match_record : MatchRec)
    (tc : List TeammateContribution × List (ℕ × ℤ)) : DB :=
  let contributions := tc.1.map (fun c =>
    (⟨match_id, round_number, c.source_player_id,
      c.beneficiary_player_id, c.source_tournament_elo_change,
      c.contribution_amount⟩ : ContributionRow))
  if contributions = [] then db1
  else
    let db2a := { db1 with contribs := db1.contribs ++ contributions }
    let goc := get_or_create_batch db2a.tournamentScores
      (tc.2.map Prod.fst) match_record.tournament_id group_id
    let db2b := { db2a with tournamentScores := goc.1 }
    let updates := tc.2.map (fun pa =>
      let base_elo := (((tournament_elo_changes.find?
        (fun c => c.player_id == pa.1)).map
          (fun c => c.new_elo)).orElse
        (fun _ => goc.2.lookup pa.1)).getD 1200
      (pa.1, match_record.tournament_id, base_elo + pa.2))
    if updates = [] then db2b
    else { db2b with
      tournamentScores := update_elo_batch db2b.tournamentScores updates }

/-- The all-time rating writes: one `UPDATE players` per change. -/
def updatePlayersElo (pl : List (ℕ × ℤ)) (changes : List EloChange) :
    List (ℕ × ℤ) :=
  changes.foldl (fun acc c => acc.map (fun p =>
    if p.1 == c.player_id then (p.1, c.new_elo) else p)) pl

/-- The `player_match_scores` update loop: add this round's deltas to each
player's aggregate row. -/
def updateMatchScores (ms : List MatchScoreRow) (match_id : ℕ)
    (updates : List (ℕ × ℤ × ℤ × ℤ × ℤ)) : List MatchScoreRow :=
  updates.foldl (fun acc u => acc.map (fun row =>
    if row.match_id == match_id && row.player_id == u.1 then
      { row with
        position := u.2.1
        elo_change := row.elo_change + u.2.2.1
        tournament_elo_from_races :=
          row.tournament_elo_from_races + u.2.2.2.1
        tournament_elo_from_contributions :=
          row.tournament_elo_from_contributions + u.2.2.2.2
        tournament_elo_change := row.tournament_elo_change
          + u.2.2.2.1 + u.2.2.2.2 }
    else row)) ms

/-- The successful main transaction's final state, before the completion
check: race rows, teammate contributions, rating updates, aggregates, and
the round's completed flag. -/
def recordWrites (db : DB) (group_id match_id round_number : ℕ)
    (results : List (ℕ × ℤ))
    (all_time_elo_changes tournament_elo_changes : List EloChange)
    (match_record : MatchRec) (race_rows : List RaceScoreRow) : DB :=
  let db1 := { db with raceScores := db.raceScores ++ race_rows }
  let tc := calculate_teammate_contributions results db.teamPlayers
    (buildTeamToPlayers db.teamPlayers)
    (tournament_elo_changes.map (fun c => (c.player_id, c.elo_change)))
  let db2 := applyContributionWrites db1 group_id match_id round_number
    tournament_elo_changes match_record tc
  let db3 := { db2 with
    players := updatePlayersElo db2.players all_time_elo_changes }
  let tournament_elo_updates : List (ℕ × ℕ × ℤ) := (tournament_elo_changes.filter
    (fun c => decide (c.player_id ∉ tc.2.map Prod.fst))).map
    (fun c => (c.player_id, match_record.tournament_id, c.new_elo))
  let db4 :=
    if tournament_elo_updates = [] then db3
    else { db3 with
      tournamentScores := update_elo_batch db3.tournamentScores
        tournament_elo_updates }
  let db5 := { db4 with
    matchScores := updateMatchScores db4.matchScores match_id
      (calculate_player_match_aggregates db4 match_id
        all_time_elo_changes tournament_elo_changes) }
  { db5 with
    rounds := markRoundCompleted db5.rounds match_id round_number }

/-- `record_results_in_transaction` (services/result_recording.rs): all the
round's writes inside one transaction; every error exit returns the state
the transaction began with. `fail` injects a database failure anywhere in
the transaction (the rollback makes all such points equivalent). -/
def record_results_in_transaction (fail : Bool) (db : DB)
    (group_id match_id round_number : ℕ) (results : List (ℕ × ℤ))
    (all_time_elo_changes tournament_elo_changes : List EloChange)
    (match_record : MatchRec) : DB × Except String MatchRec :=
  if fail then (db, .error "transaction failed")
  else
    match buildRaceRows group_id match_id round_number
        all_time_elo_changes tournament_elo_changes results with
    | .error e => (db, .error e)
    | .ok race_rows =>
      let db6 := recordWrites db group_id match_id round_number results
        all_time_elo_changes tournament_elo_changes match_record race_rows
      if check_all_rounds_completed db6.rounds match_id then
        let db7 := calculate_and_store_team_scores db6 group_id match_id
        match (markMatchCompleted db7.matchRows match_id).find?
            (fun m => m.id == match_id) with
        | none => (db, .error "match row not found")
        | some updated =>
          ({ db7 with
              matchRows := markMatchCompleted db7.matchRows match_id },
            .ok updated)
      else (db6, .ok match_record)

/-- `record_race_results` (services/result_recording.rs): fetch the all-time
ratings, lazily create and fetch the tournament ratings in a separate,
immediately committed transaction, run the rating engine twice, then record
everything in the main transaction. -/
def record_race_results (fail_fetch fail_main : Bool)
    (elo_fn : List PlayerResult → List EloChange) (db : DB)
    (group_id match_id round_number : ℕ) (results : List (ℕ × ℤ))
    (match_record : MatchRec) : DB × Except String MatchRec :=
  let player_ids := results.map Prod.fst
  let all_time_player_elos := find_by_ids db.players player_ids
  if fail_fetch then
    (db, .error "Failed to commit tournament ELO fetch transaction")
  else
    let goc := get_or_create_batch db.tournamentScores player_ids
      match_record.tournament_id group_id
    let db1 := { db with tournamentScores := goc.1 }
    match create_player_results results all_time_player_elos with
    | .error e => (db1, .error e)
    | .ok all_time_player_results =>
      match create_player_results results goc.2 with
      | .error e => (db1, .error e)
      | .ok tournament_player_results =>
        record_results_in_transaction fail_main db1 group_id match_id
          round_number results (elo_fn all_time_player_results)
          (elo_fn tournament_player_results) match_record

/-- `validate_results`: non-empty, positions in 1..24, no duplicates. -/
def validate_results (results : List (ℕ × ℤ)) : Except String Unit :=
  if results = [] then .error "At least one player result is required"
  else if results.any (fun r => decide (r.2 < 1 ∨ 24 < r.2)) then
    .error "Positions must be between 1 and 24"
  else if ¬ (results.map Prod.snd).Nodup then
    .error "Duplicate positions are not allowed"
  else .ok ()

/-- `get_round_players`: the round's scheduled participants. -/
def get_round_players (db : DB) (match_id round_number : ℕ) : List ℕ :=
  (db.roundPlayers.filter (fun rp => rp.match_id == match_id
    && rp.round_number == round_number)).map (fun rp => rp.player_id)

/-- `validate_players_in_round`: set equality of the submitted and
scheduled participants. -/
def validate_players_in_round (submitted round_players : List ℕ) :
    Except String Unit :=
  if (∀ x ∈ submitted, x ∈ round_players)
      ∧ (∀ x ∈ round_players, x ∈ submitted)
  then .ok ()
  else .error
    "Results must include all players in this round, no more and no less"

/-- `record_round_results` (graphql/rounds/mutations.rs): the mutation's
guard sequence — validation, match lookup, authorization, completed-match
and completed-round conflicts, participant-set check — composed with the
service recording path. Every guard fires before any write. -/
def record_round_results (fail_fetch fail_main : Bool)
    (elo_fn : List PlayerResult → List EloChange) (db : DB)
    (group_id match_id round_number : ℕ) (results : List (ℕ × ℤ)) :
    DB × Except String MatchRec :=
  match validate_results results with
  | .error e => (db, .error e)
  | .ok _ =>
    match db.matchRows.find? (fun m => m.id == match_id) with
    | none => (db, .error "Match not found")
    | some match_record =>
      if match_record.group_id ≠ group_id then (db, .error "Unauthorized")
      else if match_record.completed then
        (db, .error "Match is already completed")
      else
        match db.rounds.find? (fun r => r.match_id == match_id
            && r.round_number == round_number) with
        | none => (db, .error "Round not found")
        | some round =>
          if round.completed then (db, .error "Round is already completed")
          else
            match validate_players_in_round (results.map Prod.fst)
                (get_round_players db match_id round_number) with
            | .error e => (db, .error e)
            | .ok _ =>
              record_race_results fail_fetch fail_main elo_fn db group_id
                match_id round_number results match_record

/-! ### Supporting lemmas for result recording -/

lemma foldl_accumulate_subset (cond : List ℕ → ℕ → Prop)
    [∀ acc id, Decidable (cond acc id)] :
    ∀ (l acc : List ℕ) (x : ℕ),
      x ∈ l.foldl (fun acc id =>
        if cond acc id then acc else acc ++ [id]) acc →
      x ∈ acc ∨ x ∈ l := by
  intro l
  induction l with
  | nil => intro acc x hx; exact Or.inl hx
  | cons a l ih =>
    intro acc x hx
    rw [List.foldl_cons] at hx
    by_cases hc : cond acc a
    · rw [if_pos hc] at hx
      rcases ih acc x hx with h | h
      · exact Or.inl h
      · exact Or.inr (List.mem_cons_of_mem _ h)
    · rw [if_neg hc] at hx
      rcases ih (acc ++ [a]) x hx with h | h
      · rcases List.mem_append.mp h with h | h
        · exact Or.inl h
        · rw [List.mem_singleton] at h
          exact Or.inr (h ▸ List.mem_cons_self _ _)
      · exact Or.inr (List.mem_cons_of_mem _ h)

/-- The rows `get_or_create_batch` adds: appended at the end, all for
requested players, all at rating 1200. -/
lemma get_or_create_batch_fst (scores : List TournamentScoreRow)
    (ids : List ℕ) (tid gid : ℕ) :
    ∃ extra, (get_or_create_batch scores ids tid gid).1 = scores ++ extra ∧
      ∀ r ∈ extra, r.player_id ∈ ids ∧ r.elo_rating = 1200 := by
  refine ⟨_, rfl, ?_⟩
  intro r hr
  rw [List.mem_map] at hr
  obtain ⟨id, hid, rfl⟩ := hr
  refine ⟨?_, rfl⟩
  have := foldl_accumulate_subset
    (fun acc id => (scores.find? (fun r => r.player_id == id
      && r.tournament_id == tid)).isSome = true ∨ id ∈ acc) ids [] id hid
  rcases this with h | h
  · exact absurd h (List.not_mem_nil id)
  · exact h

/-- Any error exit of the main recording transaction returns the state the
transaction began with. -/
lemma record_results_in_transaction_error (fail : Bool) (db : DB)
    (gid mid rn : ℕ) (results : List (ℕ × ℤ))
    (ac tc : List EloChange) (mrec : MatchRec) (db2 : DB) (e : String)
    (h : record_results_in_transaction fail db gid mid rn results ac tc mrec
      = (db2, .error e)) :
    db2 = db := by
  rw [record_results_in_transaction] at h
  split at h
  · injection h with h1 h2
    exact h1.symm
  · split at h
    · injection h with h1 h2
      exact h1.symm
    · dsimp only at h
      split at h
      · split at h
        · injection h with h1 h2
          exact h1.symm
        · injection h with h1 h2
          exact absurd h2 (by simp)
      · injection h with h1 h2
        exact absurd h2 (by simp)

/-- Any error exit of `record_race_results` leaves either the initial state
or the state where only the fetch transaction committed. -/
lemma record_race_results_error (ff fm : Bool)
    (elo_fn : List PlayerResult → List EloChange) (db : DB)
    (gid mid rn : ℕ) (results : List (ℕ × ℤ)) (mrec : MatchRec)
    (db2 : DB) (e : String)
    (h : record_race_results ff fm elo_fn db gid mid rn results mrec
      = (db2, .error e)) :
    db2 = db ∨
      db2 = { db with tournamentScores :=
        (get_or_create_batch db.tournamentScores (results.map Prod.fst)
          mrec.tournament_id gid).1 } := by
  rw [record_race_results] at h
  split at h
  · injection h with h1 h2
    exact Or.inl h1.symm
  · dsimp only at h
    split at h
    · injection h with h1 h2
      exact Or.inr h1.symm
    · split at h
      · injection h with h1 h2
        exact Or.inr h1.symm
      · exact Or.inr (record_results_in_transaction_error _ _ _ _ _ _ _ _ _ _ _ h)

/-- Any error exit of the mutation leaves either the initial state or the
state where only the fetch transaction committed (for the found match's
tournament). -/
lemma record_round_results_error_cases (ff fm : Bool)
    (elo_fn : List PlayerResult → List EloChange) (db : DB)
    (gid mid rn : ℕ) (results : List (ℕ × ℤ)) (db2 : DB) (e : String)
    (h : record_round_results ff fm elo_fn db gid mid rn results
      = (db2, .error e)) :
    db2 = db ∨
      ∃ mrec, db.matchRows.find? (fun m => m.id == mid) = some mrec ∧
        db2 = { db with tournamentScores :=
          (get_or_create_batch db.tournamentScores (results.map Prod.fst)
            mrec.tournament_id gid).1 } := by
  rw [record_round_results] at h
  split at h
  · injection h with h1 h2
    exact Or.inl h1.symm
  · split at h
    · injection h with h1 h2
      exact Or.inl h1.symm
    · rename_i mrec hfind
      split at h
      · injection h with h1 h2
        exact Or.inl h1.symm
      · split at h
        · injection h with h1 h2
          exact Or.inl h1.symm
        · split at h
          · injection h with h1 h2
            exact Or.inl h1.symm
          · rename_i r0 hrfind
            split at h
            · injection h with h1 h2
              exact Or.inl h1.symm
            · split at h
              · injection h with h1 h2
                exact Or.inl h1.symm
              · rcases record_race_results_error _ _ _ _ _ _ _ _ _ _ _ h
                  with h1 | h1
                · exact Or.inl h1
                · exact Or.inr ⟨mrec, hfind, h1⟩

/-- **C1.** The precise failure frame of `record_round_results`: every
error exit leaves the players, race scores, match aggregates, contribution
rows, rounds, matches, lineups and team scores exactly as they were, and the
tournament-rating table either unchanged or extended with freshly created
rows at 1200 for submitted players — the rows the separately committed
rating-fetch transaction lazily created. (The spec's stronger claim that a
failed call leaves *all* state, including tournament ratings, unchanged is
refuted by `record_round_results_partial_persist`.) -/
theorem record_round_results_failure_frame (ff fm : Bool)
    (elo_fn : List PlayerResult → List EloChange) (db : DB)
    (gid mid rn : ℕ) (results : List (ℕ × ℤ)) (db2 : DB) (e : String)
    (h : record_round_results ff fm elo_fn db gid mid rn results
      = (db2, .error e)) :
    db2.players = db.players ∧ db2.raceScores = db.raceScores ∧
    db2.matchScores = db.matchScores ∧ db2.contribs = db.contribs ∧
    db2.rounds = db.rounds ∧ db2.matchRows = db.matchRows ∧
    db2.teamPlayers = db.teamPlayers ∧ db2.roundPlayers = db.roundPlayers ∧
    db2.teamMatchScores = db.teamMatchScores ∧ db2.teams = db.teams ∧
    (db2.tournamentScores = db.tournamentScores ∨
      ∃ extra, db2.tournamentScores = db.tournamentScores ++ extra ∧
        ∀ r ∈ extra, r.player_id ∈ results.map Prod.fst ∧
          r.elo_rating = 1200) := by
  rcases record_round_results_error_cases ff fm elo_fn db gid mid rn results
    db2 e h with h1 | ⟨mrec, _, h1⟩
  · subst h1
    exact ⟨rfl, rfl, rfl, rfl, rfl, rfl, rfl, rfl, rfl, rfl, Or.inl rfl⟩
  · subst h1
    refine ⟨rfl, rfl, rfl, rfl, rfl, rfl, rfl, rfl, rfl, rfl, Or.inr ?_⟩
    exact get_or_create_batch_fst db.tournamentScores (results.map Prod.fst)
      mrec.tournament_id gid

/-- A concrete state for the counterexample: one scheduled player with no
tournament-rating row yet. -/
def dbC1 : DB :=
  { players := [(1, 1000)], tournamentScores := [], raceScores := [],
    matchScores := [], contribs := [], teamPlayers := [(1, 20)],
    roundPlayers := [⟨10, 1, 1, 20⟩], rounds := [⟨10, 1, false⟩],
    matchRows := [⟨10, 5, 7, false⟩], teamMatchScores := [], teams := [] }

/-- **C1 counterexample.** A call that fails inside the main recording
transaction (after the rating-engine ran) still persists the tournament
rating row the fetch transaction lazily created: the final state differs
from the initial one even though the call errored. -/
theorem record_round_results_partial_persist :
    (record_round_results false true (fun _ => []) dbC1 5 10 1 [(1, 3)]).2
        = Except.error "transaction failed" ∧
      (record_round_results false true (fun _ => []) dbC1 5 10 1
        [(1, 3)]).1 ≠ dbC1 :=
  ⟨by rfl, by decide⟩

/-- Witness for `record_round_results_failure_frame` at the concrete failing
call. -/
theorem record_round_results_failure_frame_witness :
    (record_round_results false true (fun _ => []) dbC1 5 10 1
        [(1, 3)]).1.players = dbC1.players ∧
    (record_round_results false true (fun _ => []) dbC1 5 10 1
        [(1, 3)]).1.raceScores = dbC1.raceScores ∧
    (record_round_results false true (fun _ => []) dbC1 5 10 1
        [(1, 3)]).1.matchScores = dbC1.matchScores ∧
    (record_round_results false true (fun _ => []) dbC1 5 10 1
        [(1, 3)]).1.contribs = dbC1.contribs ∧
    (record_round_results false true (fun _ => []) dbC1 5 10 1
        [(1, 3)]).1.rounds = dbC1.rounds ∧
    (record_round_results false true (fun _ => []) dbC1 5 10 1
        [(1, 3)]).1.matchRows = dbC1.matchRows ∧
    (record_round_results false true (fun _ => []) dbC1 5 10 1
        [(1, 3)]).1.teamPlayers = dbC1.teamPlayers ∧
    (record_round_results false true (fun _ => []) dbC1 5 10 1
        [(1, 3)]).1.roundPlayers = dbC1.roundPlayers ∧
    (record_round_results false true (fun _ => []) dbC1 5 10 1
        [(1, 3)]).1.teamMatchScores = dbC1.teamMatchScores ∧
    (record_round_results false true (fun _ => []) dbC1 5 10 1
        [(1, 3)]).1.teams = dbC1.teams ∧
    ((record_round_results false true (fun _ => []) dbC1 5 10 1
        [(1, 3)]).1.tournamentScores = dbC1.tournamentScores ∨
      ∃ extra, (record_round_results false true (fun _ => []) dbC1 5 10 1
          [(1, 3)]).1.tournamentScores = dbC1.tournamentScores ++ extra ∧
        ∀ r ∈ extra, r.player_id ∈ ([(1, 3)] : List (ℕ × ℤ)).map Prod.fst ∧
          r.elo_rating = 1200) :=
  record_round_results_failure_frame false true (fun _ => []) dbC1 5 10 1
    [(1, 3)]
    (record_round_results false true (fun _ => []) dbC1 5 10 1 [(1, 3)]).1
    "transaction failed" (by rfl)

lemma applyContributionWrites_rounds (db1 : DB) (gid mid rn : ℕ)
    (tcs : List EloChange) (mrec : MatchRec)
    (tc : List TeammateContribution × List (ℕ × ℤ)) :
    (applyContributionWrites db1 gid mid rn tcs mrec tc).rounds = db1.rounds ∧
    (applyContributionWrites db1 gid mid rn tcs mrec tc).matchRows
      = db1.matchRows := by
  rw [applyContributionWrites]
  dsimp only
  split
  · exact ⟨rfl, rfl⟩
  · split
    · exact ⟨rfl, rfl⟩
    · exact ⟨rfl, rfl⟩

lemma recordWrites_rounds (db : DB) (gid mid rn : ℕ)
    (results : List (ℕ × ℤ)) (ac tcs : List EloChange) (mrec : MatchRec)
    (rows : List RaceScoreRow) :
    (recordWrites db gid mid rn results ac tcs mrec rows).rounds
      = markRoundCompleted db.rounds mid rn ∧
    (recordWrites db gid mid rn results ac tcs mrec rows).matchRows
      = db.matchRows := by
  rw [recordWrites]
  dsimp only
  constructor
  · congr 1
    split
    · exact (applyContributionWrites_rounds _ _ _ _ _ _ _).1
    · exact (applyContributionWrites_rounds _ _ _ _ _ _ _).1
  · split
    · exact (applyContributionWrites_rounds _ _ _ _ _ _ _).2
    · exact (applyContributionWrites_rounds _ _ _ _ _ _ _).2

lemma find_markRoundCompleted (rounds : List RoundRow) (mid rn : ℕ)
    (r0 : RoundRow)
    (h : rounds.find? (fun x => x.match_id == mid && x.round_number == rn)
      = some r0) :
    (markRoundCompleted rounds mid rn).find?
        (fun x => x.match_id == mid && x.round_number == rn)
      = some { r0 with completed := true } := by
  have hr0 := List.find?_some h
  rw [markRoundCompleted, List.find?_map]
  have hp : ((fun (x : RoundRow) => x.match_id == mid
        && x.round_number == rn) ∘
      (fun r => if r.match_id == mid && r.round_number == rn then
        { r with completed := true } else r))
      = fun x => x.match_id == mid && x.round_number == rn := by
    funext x
    by_cases hx : (x.match_id == mid && x.round_number == rn) = true
    · simp only [Function.comp_apply, if_pos hx]
    · simp only [Function.comp_apply, if_neg hx]
  rw [hp, h]
  simp only [Option.map_some']
  rw [if_pos hr0]

lemma find_markMatchCompleted (ms : List MatchRec) (mid : ℕ) (m0 : MatchRec)
    (h : ms.find? (fun x => x.id == mid) = some m0) :
    (markMatchCompleted ms mid).find? (fun x => x.id == mid)
      = some { m0 with completed := true } := by
  have hm0 := List.find?_some h
  rw [markMatchCompleted, List.find?_map]
  have hp : ((fun (x : MatchRec) => x.id == mid) ∘
      (fun m => if m.id == mid then { m with completed := true } else m))
      = fun x => x.id == mid := by
    funext x
    by_cases hx : (x.id == mid) = true
    · simp only [Function.comp_apply, if_pos hx]
    · simp only [Function.comp_apply, if_neg hx]
  rw [hp, h]
  simp only [Option.map_some']
  rw [if_pos hm0]

lemma check_all_rounds_completed_iff (rounds : List RoundRow) (mid : ℕ) :
    check_all_rounds_completed rounds mid = true ↔
      ∀ r ∈ rounds, r.match_id = mid → r.completed = true := by
  rw [check_all_rounds_completed]
  simp only [beq_iff_eq, List.length_eq_zero, List.filter_eq_nil_iff,
    Bool.and_eq_true, Bool.not_eq_true', decide_eq_true_eq, not_and]
  constructor
  · intro h r hr hmid
    have := h r hr
    by_cases hc : r.completed = true
    · exact hc
    · have hfalse : r.completed = false := by
        cases hcomp : r.completed
        · rfl
        · exact absurd hcomp hc
      exact absurd hfalse (this (by exact_mod_cast hmid))
  · intro h r hr hmid hfalse
    have := h r hr (by exact_mod_cast hmid)
    rw [this] at hfalse
    cases hfalse

lemma calculate_and_store_team_scores_matchRows (db : DB) (gid mid : ℕ) :
    (calculate_and_store_team_scores db gid mid).matchRows = db.matchRows :=
  rfl

lemma calculate_and_store_team_scores_rounds (db : DB) (gid mid : ℕ) :
    (calculate_and_store_team_scores db gid mid).rounds = db.rounds :=
  rfl

/-- The full shape of a successful `record_round_results`: every guard
passed, the round's flag is set, and the match row and returned match are
marked completed exactly when the completion check over the updated rounds
succeeds. -/
lemma record_round_results_ok_spec (ff fm : Bool)
    (elo_fn : List PlayerResult → List EloChange) (db : DB)
    (gid mid rn : ℕ) (results : List (ℕ × ℤ)) (db2 : DB) (m : MatchRec)
    (h : record_round_results ff fm elo_fn db gid mid rn results
      = (db2, .ok m)) :
    ∃ mrec, db.matchRows.find? (fun x => x.id == mid) = some mrec ∧
      mrec.group_id = gid ∧ mrec.completed = false ∧
      (∃ r0, db.rounds.find? (fun x => x.match_id == mid
          && x.round_number == rn) = some r0 ∧ r0.completed = false) ∧
      db2.rounds = markRoundCompleted db.rounds mid rn ∧
      ((db2.matchRows = markMatchCompleted db.matchRows mid ∧
          m = { mrec with completed := true } ∧
          check_all_rounds_completed (markRoundCompleted db.rounds mid rn)
            mid = true) ∨
        (db2.matchRows = db.matchRows ∧ m = mrec ∧
          check_all_rounds_completed (markRoundCompleted db.rounds mid rn)
            mid = false)) := by
  rw [record_round_results] at h
  split at h
  · injection h with h1 h2
    exact absurd h2 (by simp)
  · split at h
    · injection h with h1 h2
      exact absurd h2 (by simp)
    · rename_i mrec hfind
      split at h
      · injection h with h1 h2
        exact absurd h2 (by simp)
      · rename_i hgroup
        split at h
        · injection h with h1 h2
          exact absurd h2 (by simp)
        · rename_i hcomp
          split at h
          · injection h with h1 h2
            exact absurd h2 (by simp)
          · rename_i r0 hrfind
            split at h
            · injection h with h1 h2
              exact absurd h2 (by simp)
            · rename_i hr0
              split at h
              · injection h with h1 h2
                exact absurd h2 (by simp)
              · refine ⟨mrec, hfind, not_ne_iff.mp hgroup,
                  Bool.not_eq_true _ ▸ eq_false_of_ne_true hcomp, ?_, ?_⟩
                · exact ⟨r0, hrfind, eq_false_of_ne_true hr0⟩
                · rw [record_race_results] at h
                  split at h
                  · injection h with h1 h2
                    exact absurd h2 (by simp)
                  · dsimp only at h
                    split at h
                    · injection h with h1 h2
                      exact absurd h2 (by simp)
                    · rename_i atr hatr
                      split at h
                      · injection h with h1 h2
                        exact absurd h2 (by simp)
                      · rename_i ttr httr
                        rw [record_results_in_transaction] at h
                        split at h
                        · injection h with h1 h2
                          exact absurd h2 (by simp)
                        · split at h
                          · injection h with h1 h2
                            exact absurd h2 (by simp)
                          · rename_i rows hrows
                            dsimp only at h
                            split at h
                            · rename_i hcheck
                              split at h
                              · injection h with h1 h2
                                exact absurd h2 (by simp)
                              · rename_i updated hupfind
                                injection h with h1 h2
                                injection h2 with h3
                                obtain ⟨hwr, hwm⟩ := recordWrites_rounds
                                  { db with tournamentScores :=
                                    (get_or_create_batch db.tournamentScores
                                      (results.map Prod.fst)
                                      mrec.tournament_id gid).1 }
                                  gid mid rn results (elo_fn atr)
                                  (elo_fn ttr) mrec rows
                                constructor
                                · rw [← h1]
                                  exact hwr
                                · left
                                  rw [calculate_and_store_team_scores_matchRows,
                                    hwm] at hupfind
                                  rw [find_markMatchCompleted db.matchRows
                                    mid mrec hfind] at hupfind
                                  injection hupfind with hup
                                  refine ⟨?_, ?_, ?_⟩
                                  · rw [← h1]
                                    show markMatchCompleted _ mid = _
                                    rw [calculate_and_store_team_scores_matchRows,
                                      hwm]
                                  · rw [← h3, ← hup]
                                  · rw [hwr] at hcheck
                                    exact hcheck
                            · rename_i hcheck
                              injection h with h1 h2
                              injection h2 with h3
                              obtain ⟨hwr, hwm⟩ := recordWrites_rounds
                                { db with tournamentScores :=
                                  (get_or_create_batch db.tournamentScores
                                    (results.map Prod.fst)
                                    mrec.tournament_id gid).1 }
                                gid mid rn results (elo_fn atr)
                                (elo_fn ttr) mrec rows
                              constructor
                              · rw [← h1]
                                exact hwr
                              · right
                                refine ⟨?_, h3.symm, ?_⟩
                                · rw [← h1]
                                  exact hwm
                                · rw [hwr] at hcheck
                                  exact eq_false_of_ne_true hcheck

/-- **C2.** Every guard violation — a position outside 1..24, duplicate
positions, an already-completed match, an already-scored round, or a
submitted player set differing from the round's scheduled participants —
makes `record_round_results` return an error with the state untouched; and
after a successful submission, any second submission for the same round
fails and leaves the state exactly as after the first call. -/
theorem record_round_results_guards (ff fm : Bool)
    (elo_fn : List PlayerResult → List EloChange) (db : DB)
    (gid mid rn : ℕ) (results : List (ℕ × ℤ)) :
    ((∃ r ∈ results, r.2 < 1 ∨ 24 < r.2) →
      ∃ e, record_round_results ff fm elo_fn db gid mid rn results
        = (db, .error e)) ∧
    (¬ (results.map Prod.snd).Nodup →
      ∃ e, record_round_results ff fm elo_fn db gid mid rn results
        = (db, .error e)) ∧
    (∀ mrec, db.matchRows.find? (fun x => x.id == mid) = some mrec →
      mrec.completed = true →
      ∃ e, record_round_results ff fm elo_fn db gid mid rn results
        = (db, .error e)) ∧
    (∀ r0, db.rounds.find? (fun x => x.match_id == mid
        && x.round_number == rn) = some r0 →
      r0.completed = true →
      ∃ e, record_round_results ff fm elo_fn db gid mid rn results
        = (db, .error e)) ∧
    (¬ ((∀ x ∈ results.map Prod.fst, x ∈ get_round_players db mid rn) ∧
        (∀ x ∈ get_round_players db mid rn, x ∈ results.map Prod.fst)) →
      ∃ e, record_round_results ff fm elo_fn db gid mid rn results
        = (db, .error e)) ∧
    (∀ db1 m, record_round_results ff fm elo_fn db gid mid rn results
        = (db1, .ok m) →
      ∀ (ff2 fm2 : Bool) (elo_fn2 : List PlayerResult → List EloChange),
        ∃ e, record_round_results ff2 fm2 elo_fn2 db1 gid mid rn results
          = (db1, .error e)) := by
  refine ⟨?_, ?_, ?_, ?_, ?_, ?_⟩
  · rintro ⟨r, hrmem, hrq⟩
    have hv : validate_results results
        = .error "Positions must be between 1 and 24" := by
      rw [validate_results, if_neg (List.ne_nil_of_mem hrmem), if_pos]
      exact List.any_eq_true.mpr ⟨r, hrmem, decide_eq_true hrq⟩
    rw [record_round_results, hv]
    exact ⟨_, rfl⟩
  · intro hnd
    have hv : ∃ e, validate_results results = .error e := by
      rw [validate_results]
      by_cases h1 : results = []
      · rw [if_pos h1]
        exact ⟨_, rfl⟩
      · rw [if_neg h1]
        by_cases h2 : results.any (fun r => decide (r.2 < 1 ∨ 24 < r.2))
          = true
        · rw [if_pos h2]
          exact ⟨_, rfl⟩
        · rw [if_neg h2, if_pos hnd]
          exact ⟨_, rfl⟩
    obtain ⟨e, hv⟩ := hv
    rw [record_round_results, hv]
    exact ⟨e, rfl⟩
  · intro mrec hfind hcomp
    rw [record_round_results]
    rcases hval : validate_results results with e | u
    · exact ⟨e, rfl⟩
    · simp only []
      rw [hfind]
      simp only []
      by_cases hg : mrec.group_id ≠ gid
      · rw [if_pos hg]
        exact ⟨_, rfl⟩
      · rw [if_neg hg, if_pos hcomp]
        exact ⟨_, rfl⟩
  · intro r0 hrfind hr0comp
    rw [record_round_results]
    rcases hval : validate_results results with e | u
    · exact ⟨e, rfl⟩
    · simp only []
      rcases hfind : db.matchRows.find? (fun x => x.id == mid) with _ | mrec
      · rw [hfind]
        exact ⟨_, rfl⟩
      · rw [hfind]
        simp only []
        by_cases hg : mrec.group_id ≠ gid
        · rw [if_pos hg]
          exact ⟨_, rfl⟩
        · rw [if_neg hg]
          by_cases hc : mrec.completed = true
          · rw [if_pos hc]
            exact ⟨_, rfl⟩
          · rw [if_neg hc, hrfind]
            simp only []
            rw [if_pos hr0comp]
            exact ⟨_, rfl⟩
  · intro hmis
    rw [record_round_results]
    rcases hval : validate_results results with e | u
    · exact ⟨e, rfl⟩
    · simp only []
      rcases hfind : db.matchRows.find? (fun x => x.id == mid) with _ | mrec
      · rw [hfind]
        exact ⟨_, rfl⟩
      · rw [hfind]
        simp only []
        by_cases hg : mrec.group_id ≠ gid
        · rw [if_pos hg]
          exact ⟨_, rfl⟩
        · rw [if_neg hg]
          by_cases hc : mrec.completed = true
          · rw [if_pos hc]
            exact ⟨_, rfl⟩
          · rw [if_neg hc]
            rcases hrfind : db.rounds.find? (fun x => x.match_id == mid
                && x.round_number == rn) with _ | r0
            · rw [hrfind]
              exact ⟨_, rfl⟩
            · rw [hrfind]
              simp only []
              by_cases hr0 : r0.completed = true
              · rw [if_pos hr0]
                exact ⟨_, rfl⟩
              · rw [if_neg hr0, validate_players_in_round, if_neg hmis]
                exact ⟨_, rfl⟩
  · intro db1 m hok ff2 fm2 elo_fn2
    obtain ⟨mrec, hfind, hg, hcomp, ⟨r0, hrfind, hr0c⟩, hrounds, hbranch⟩ :=
      record_round_results_ok_spec ff fm elo_fn db gid mid rn results db1 m
        hok
    rw [record_round_results]
    rcases hval : validate_results results with e | u
    · exact ⟨e, rfl⟩
    · simp only []
      rcases hbranch with ⟨hm, hmeq, hchk⟩ | ⟨hm, hmeq, hchk⟩
      · rw [hm, find_markMatchCompleted db.matchRows mid mrec hfind]
        simp only []
        rw [if_neg (not_ne_iff.mpr hg), if_pos trivial]
        exact ⟨_, rfl⟩
      · rw [hm, hfind]
        simp only []
        rw [if_neg (not_ne_iff.mpr hg), if_neg (by simp [hcomp]), hrounds,
          find_markRoundCompleted db.rounds mid rn r0 hrfind]
        simp only []
        rw [if_pos trivial]
        exact ⟨_, rfl⟩

/-- Witness for `record_round_results_guards`: an out-of-range position is
rejected with the state untouched. -/
theorem record_round_results_guards_witness :
    ∃ e, record_round_results false false (fun _ => []) dbC1 5 10 1
      [(1, 99)] = (dbC1, .error e) :=
  (record_round_results_guards false false (fun _ => []) dbC1 5 10 1
    [(1, 99)]).1 ⟨(1, 99), by decide, by decide⟩

/-- **C4.** After any successful `record_round_results`, the returned match
is completed exactly when every round of the match is completed in the final
state; the triggering round is marked completed in that same state; the
match table is either untouched or has exactly the match marked completed;
and a completed returned match means the stored match row is completed. -/
theorem record_round_results_completion (ff fm : Bool)
    (elo_fn : List PlayerResult → List EloChange) (db : DB)
    (gid mid rn : ℕ) (results : List (ℕ × ℤ)) (db2 : DB) (m : MatchRec)
    (h : record_round_results ff fm elo_fn db gid mid rn results
      = (db2, .ok m)) :
    (m.completed = true ↔
      ∀ r ∈ db2.rounds, r.match_id = mid → r.completed = true) ∧
    (∃ r ∈ db2.rounds, r.match_id = mid ∧ r.round_number = rn ∧
      r.completed = true) ∧
    (db2.matchRows = db.matchRows ∨
      db2.matchRows = markMatchCompleted db.matchRows mid) ∧
    (m.completed = true → ∀ mr ∈ db2.matchRows, mr.id = mid →
      mr.completed = true) := by
  obtain ⟨mrec, hfind, hg, hcomp, ⟨r0, hrfind, hr0c⟩, hrounds, hbranch⟩ :=
    record_round_results_ok_spec ff fm elo_fn db gid mid rn results db2 m h
  have hiff := check_all_rounds_completed_iff
    (markRoundCompleted db.rounds mid rn) mid
  refine ⟨?_, ?_, ?_, ?_⟩
  · rcases hbranch with ⟨hm, hmeq, hchk⟩ | ⟨hm, hmeq, hchk⟩
    · constructor
      · intro _
        rw [hrounds]
        exact hiff.mp hchk
      · intro _
        rw [hmeq]
    · constructor
      · intro hmc
        exfalso
        rw [hmeq] at hmc
        rw [hcomp] at hmc
        cases hmc
      · intro hall
        exfalso
        rw [hrounds] at hall
        have := hiff.mpr hall
        rw [hchk] at this
        cases this
  · have hr0mem := List.mem_of_find?_eq_some hrfind
    have hpred := List.find?_some hrfind
    have hpred2 := hpred
    rw [Bool.and_eq_true, beq_iff_eq, beq_iff_eq] at hpred2
    refine ⟨{ r0 with completed := true }, ?_, hpred2.1, hpred2.2, rfl⟩
    rw [hrounds, markRoundCompleted]
    refine List.mem_map.mpr ⟨r0, hr0mem, ?_⟩
    rw [if_pos hpred]
  · rcases hbranch with ⟨hm, _, _⟩ | ⟨hm, _, _⟩
    · exact Or.inr hm
    · exact Or.inl hm
  · intro hmc mr hmr hmrid
    rcases hbranch with ⟨hm, hmeq, hchk⟩ | ⟨hm, hmeq, hchk⟩
    · rw [hm, markMatchCompleted] at hmr
      rcases List.mem_map.mp hmr with ⟨x, hx, rfl⟩
      by_cases hxid : (x.id == mid) = true
      · rw [if_pos hxid]
      · rw [if_neg hxid] at hmrid ⊢
        exact absurd (by simp [hmrid]) hxid
    · exfalso
      rw [hmeq] at hmc
      rw [hcomp] at hmc
      cases hmc

/-- A successful concrete recording: the single round completes, so the
match completes with it. -/
def dbC4out : DB × Except String MatchRec :=
  record_round_results false false
    (fun rs => rs.map (fun p => ⟨p.player_id, 0, p.current_elo⟩))
    dbC1 5 10 1 [(1, 3)]

/-- Witness for `record_round_results_completion` at the concrete
successful call. -/
theorem record_round_results_completion_witness :
    (((dbC4out.2.toOption.getD default).completed = true ↔
      ∀ r ∈ dbC4out.1.rounds, r.match_id = 10 → r.completed = true) ∧
    (∃ r ∈ dbC4out.1.rounds, r.match_id = 10 ∧ r.round_number = 1 ∧
      r.completed = true) ∧
    (dbC4out.1.matchRows = dbC1.matchRows ∨
      dbC4out.1.matchRows = markMatchCompleted dbC1.matchRows 10) ∧
    ((dbC4out.2.toOption.getD default).completed = true →
      ∀ mr ∈ dbC4out.1.matchRows, mr.id = 10 → mr.completed = true)) :=
  record_round_results_completion false false
    (fun rs => rs.map (fun p => ⟨p.player_id, 0, p.current_elo⟩))
    dbC1 5 10 1 [(1, 3)] dbC4out.1 (dbC4out.2.toOption.getD default)
    (by rfl)

/-! ### Track selection -/

/-- `select_tracks` (services/track_selection.rs): partition the catalog
into tracks not recently used and recently used ones (the recent window the
query returns is a parameter), prefer the fresh pool when it suffices,
otherwise fall back to the whole catalog; shuffle (the random permutation is
a parameter) and take the requested count. -/
def select_tracks (shuffle : List ℕ → List ℕ) (all_tracks : List ℕ)
    (recently_used_track_ids : List ℕ) (num_races : ℕ) : List ℕ :=
  let available_tracks := all_tracks.filter
    (fun t => t ∉ recently_used_track_ids)
  let recently_used_tracks := all_tracks.filter
    (fun t => t ∈ recently_used_track_ids)
  let track_pool :=
    if num_races ≤ available_tracks.length then available_tracks
    else available_tracks ++ recently_used_tracks
  (shuffle track_pool).take num_races

/-- The two partitions together are a permutation of the catalog. -/
lemma track_pool_perm (all_tracks used : List ℕ) :
    (all_tracks.filter (fun t => t ∉ used)
      ++ all_tracks.filter (fun t => t ∈ used)).Perm all_tracks := by
  have h : all_tracks.filter (fun t => t ∈ used)
      = all_tracks.filter (fun t => !(decide (t ∉ used))) := by
    apply List.filter_congr
    intro x _
    simp [decide_not]
  rw [h]
  exact List.filter_append_perm _ all_tracks

/-- **C5.** What a single draw guarantees: with a duplicate-free catalog of
at least `n` tracks and any genuine shuffle, `select_tracks` returns exactly
`n` pairwise-distinct catalog tracks, and it avoids every recently used
track whenever enough fresh tracks remain. (The spec's stronger cross-draw
cycle guarantee is refuted by `select_tracks_cycle_repeat`: on shortfall the
fallback pool readmits just-used tracks, so a track can repeat within a
catalog-sized window of consecutive track-rounds.) -/
theorem select_tracks_single_draw (shuffle : List ℕ → List ℕ)
    (hshuffle : ∀ l, (shuffle l).Perm l)
    (all_tracks used : List ℕ) (n : ℕ)
    (hnodup : all_tracks.Nodup) (hn : n ≤ all_tracks.length) :
    (select_tracks shuffle all_tracks used n).length = n ∧
    (select_tracks shuffle all_tracks used n).Nodup ∧
    (∀ t ∈ select_tracks shuffle all_tracks used n, t ∈ all_tracks) ∧
    (n ≤ (all_tracks.filter (fun t => t ∉ used)).length →
      ∀ t ∈ select_tracks shuffle all_tracks used n, t ∉ used) := by
  rw [select_tracks]
  split
  · rename_i havail
    have hperm := hshuffle (all_tracks.filter (fun t => t ∉ used))
    have hlen : (shuffle (all_tracks.filter (fun t => t ∉ used))).length
        = (all_tracks.filter (fun t => t ∉ used)).length :=
      hperm.length_eq
    refine ⟨?_, ?_, ?_, ?_⟩
    · rw [List.length_take, hlen]
      omega
    · exact (List.take_sublist _ _).nodup
        (hperm.symm.nodup (hnodup.filter _))
    · intro t ht
      have := hperm.mem_iff.mp ((List.take_sublist _ _).mem ht)
      exact List.mem_of_mem_filter this
    · intro _ t ht
      have := hperm.mem_iff.mp ((List.take_sublist _ _).mem ht)
      have := List.of_mem_filter this
      exact of_decide_eq_true this
  · rename_i havail
    have hpool := (hshuffle _).trans (track_pool_perm all_tracks used)
    have hlen : (shuffle (all_tracks.filter (fun t => t ∉ used)
        ++ all_tracks.filter (fun t => t ∈ used))).length
        = all_tracks.length := hpool.length_eq
    refine ⟨?_, ?_, ?_, ?_⟩
    · rw [List.length_take, hlen]
      omega
    · exact (List.take_sublist _ _).nodup (hpool.symm.nodup hnodup)
    · intro t ht
      exact hpool.mem_iff.mp ((List.take_sublist _ _).mem ht)
    · intro hc
      exact absurd hc havail

/-- Witness for `select_tracks_single_draw`: the identity shuffle on a
three-track catalog with an empty recent window. -/
theorem select_tracks_single_draw_witness :
    (select_tracks id [1, 2, 3] [] 2).length = 2 ∧
    (select_tracks id [1, 2, 3] [] 2).Nodup ∧
    (∀ t ∈ select_tracks id [1, 2, 3] [] 2, t ∈ [1, 2, 3]) ∧
    (2 ≤ (([1, 2, 3] : List ℕ).filter (fun t => t ∉ ([] : List ℕ))).length →
      ∀ t ∈ select_tracks id [1, 2, 3] [] 2, t ∉ ([] : List ℕ)) :=
  select_tracks_single_draw id (fun l => List.Perm.refl l) [1, 2, 3] [] 2
    (by decide) (by decide)

/-- **C5 counterexample.** Catalog `[1,2,3,4]`, recent window `[3,2,1]`
(track 3 used in the immediately preceding round). Drawing two tracks with
the (legitimate) reversal shuffle returns `[3, 2]`: together with the
preceding round the consecutive track-round window `[3, 3, 2]` — well
within one catalog-sized cycle — repeats track 3. -/
theorem select_tracks_cycle_repeat :
    (∀ l : List ℕ, (List.reverse l).Perm l) ∧
    select_tracks List.reverse [1, 2, 3, 4] [3, 2, 1] 2 = [3, 2] ∧
    ¬ ([3] ++ select_tracks List.reverse [1, 2, 3, 4] [3, 2, 1] 2).Nodup ∧
    ([3] ++ select_tracks List.reverse [1, 2, 3, 4] [3, 2, 1] 2).length
      ≤ ([1, 2, 3, 4] : List ℕ).length :=
  ⟨fun l => List.reverse_perm l, by decide, by decide, by decide⟩

/-! ### Tournament completion -/

structure TournamentRow where
  id : ℕ
  group_id : ℕ
  winner : Option ℕ
deriving DecidableEq, Repr

structure StatRecord where
  tournament_id : ℕ
  stat_type : String
  player_id : ℕ
  value : ℤ
  extra : Option (ℤ × ℤ)
deriving DecidableEq, Repr

structure TDB where
  tournaments : List TournamentRow
  tournamentScores : List TournamentScoreRow
  raceScores : List RaceScoreRow
  contribs : List ContributionRow
  matchScores : List MatchScoreRow
  matchRows : List MatchRec
  stats : List StatRecord
deriving DecidableEq, Repr

/-- `ORDER BY key DESC LIMIT 1`, determinised to the first row attaining the
maximal key. -/
def maxByKeyFirstZ {α : Type} (key : α → ℤ) (l : List α) : Option α :=
  pickFold (fun y x => key y < key x) l

/-- `ORDER BY key ASC LIMIT 1`, determinised to the first row attaining the
minimal key. -/
def minByKeyFirstZ {α : Type} (key : α → ℤ) (l : List α) : Option α :=
  pickFold (fun y x => key x < key y) l

/-- The race-score rows of the tournament's matches. -/
def tournamentRaceScores (db : TDB) (tid : ℕ) : List RaceScoreRow :=
  db.raceScores.filter (fun prs =>
    (db.matchRows.find? (fun m => m.id == prs.match_id
      && m.tournament_id == tid)).isSome)

/-- `calculate_race_stats`: best race, worst race and biggest rating swing;
fewer than the three rows (an empty race history) is an error. -/
def calculate_race_stats (db : TDB) (tid : ℕ) :
    Except String (List StatRecord) :=
  let rs := tournamentRaceScores db tid
  let swings := (rs.foldl (fun acc r =>
      pushEntry acc r.player_id r.tournament_elo_after) []).map
    (fun pp => (pp.1,
      pp.2.foldl max pp.2.headI - pp.2.foldl min pp.2.headI,
      pp.2.foldl max pp.2.headI, pp.2.foldl min pp.2.headI))
  match maxByKeyFirstZ (fun r => r.tournament_elo_change) rs,
      minByKeyFirstZ (fun r => r.tournament_elo_change) rs,
      maxByKeyFirstZ (fun s => s.2.1) swings with
  | some best, some worst, some swing =>
    .ok [⟨tid, "best_race", best.player_id,
            best.tournament_elo_change, none⟩,
         ⟨tid, "worst_race", worst.player_id,
            worst.tournament_elo_change, none⟩,
         ⟨tid, "biggest_swing", swing.1, swing.2.1,
            some (swing.2.2.1, swing.2.2.2)⟩]
  | _, _, _ => .error "Not enough race data to calculate stats"

/-- The contribution rows of the tournament's matches. -/
def tournamentContribs (db : TDB) (tid : ℕ) : List ContributionRow :=
  db.contribs.filter (fun c =>
    (db.matchRows.find? (fun m => m.id == c.match_id
      && m.tournament_id == tid)).isSome)

/-- `calculate_contribution_stats`: best/worst teammate by given totals,
most helped/hurt by received totals; an empty contribution history is an
error. -/
def calculate_contribution_stats (db : TDB) (tid : ℕ) :
    Except String (List StatRecord) :=
  let cs := tournamentContribs db tid
  let source_aggregates := (cs.foldl (fun acc c =>
      pushEntry acc c.source_player_id c.contribution_amount) []).map
    (fun pp => (pp.1, pp.2.sum))
  let beneficiary_aggregates := (cs.foldl (fun acc c =>
      pushEntry acc c.beneficiary_player_id c.contribution_amount) []).map
    (fun pp => (pp.1, pp.2.sum))
  match maxByKeyFirstZ Prod.snd source_aggregates,
      minByKeyFirstZ Prod.snd source_aggregates,
      maxByKeyFirstZ Prod.snd beneficiary_aggregates,
      minByKeyFirstZ Prod.snd beneficiary_aggregates with
  | some bt, some wt, some mh, some mu =>
    .ok [⟨tid, "best_teammate", bt.1, bt.2, none⟩,
         ⟨tid, "worst_teammate", wt.1, wt.2, none⟩,
         ⟨tid, "most_helped", mh.1, mh.2, none⟩,
         ⟨tid, "most_hurt", mu.1, mu.2, none⟩]
  | _, _, _, _ =>
    .error "Not enough teammate contribution data to calculate stats"

/-- `calculate_match_stats`: best and worst match by tournament delta; an
empty match-score history is an error. -/
def calculate_match_stats (db : TDB) (tid : ℕ) :
    Except String (List StatRecord) :=
  let ms := db.matchScores.filter (fun pms =>
    (db.matchRows.find? (fun m => m.id == pms.match_id
      && m.tournament_id == tid)).isSome)
  match maxByKeyFirstZ (fun r => r.tournament_elo_change) ms,
      minByKeyFirstZ (fun r => r.tournament_elo_change) ms with
  | some bm, some wm =>
    .ok [⟨tid, "best_match", bm.player_id,
            bm.tournament_elo_change, none⟩,
         ⟨tid, "worst_match", wm.player_id,
            wm.tournament_elo_change, none⟩]
  | _, _ => .error "Not enough match data to calculate stats"

/-- `calculate_all_stats`: the three groups concatenated; the first failing
group aborts. -/
def calculate_all_stats (db : TDB) (tid : ℕ) :
    Except String (List StatRecord) :=
  match calculate_race_stats db tid with
  | .error e => .error e
  | .ok a =>
    match calculate_contribution_stats db tid with
    | .error e => .error e
    | .ok b =>
      match calculate_match_stats db tid with
      | .error e => .error e
      | .ok c => .ok (a ++ b ++ c)

/-- `calculate_winner`: the tournament's highest-rated player
(`ORDER BY elo_rating DESC LIMIT 1`), an error when the tournament has no
rating rows. -/
def calculate_winner (scores : List TournamentScoreRow) (tid : ℕ) :
    Except String ℕ :=
  match pickFold (fun (y x : TournamentScoreRow) =>
      y.elo_rating < x.elo_rating)
      (scores.filter (fun r => r.tournament_id == tid)) with
  | none => .error "No players in tournament"
  | some r => .ok r.player_id

/-- `complete_tournament` (services/tournament_completion.rs): guards (not
found, wrong group, already completed), then one transaction computing the
winner and statistics, storing both, and returning the updated tournament;
every failure (including an injected transaction failure) rolls back. -/
def complete_tournament (fail_tx : Bool) (db : TDB)
    (tournament_id group_id : ℕ) : TDB × Except String TournamentRow :=
  match db.tournaments.find? (fun t => t.id == tournament_id) with
  | none => (db, .error "Tournament not found")
  | some tournament =>
    if tournament.group_id ≠ group_id then
      (db, .error "Tournament not in group")
    else if tournament.winner.isSome then
      (db, .error "Tournament already completed")
    else if fail_tx then (db, .error "transaction failed")
    else
      match calculate_winner db.tournamentScores tournament_id with
      | .error e => (db, .error e)
      | .ok winner_id =>
        match calculate_all_stats db tournament_id with
        | .error e => (db, .error e)
        | .ok stats =>
          ({ db with
              tournaments := db.tournaments.map (fun t =>
                if t.id == tournament_id then
                  { t with winner := some winner_id } else t)
              stats := db.stats ++ stats },
            .ok { tournament with winner := some winner_id })

lemma pickFold_max_go {α : Type} (key : α → ℤ) :
    ∀ (t : List α) (c w : α),
      (t.foldl (fun acc x =>
        match acc with
        | none => some x
        | some y => if key y < key x then some x else acc) (some c))
        = some w →
      key c ≤ key w ∧ ∀ x ∈ t, key x ≤ key w := by
  intro t
  induction t with
  | nil =>
    intro c w h
    injection h with h1
    subst h1
    exact ⟨le_refl _, by intro x hx; cases hx⟩
  | cons a t ih =>
    intro c w h
    rw [List.foldl_cons] at h
    by_cases h1 : key c < key a
    · simp only [if_pos h1] at h
      obtain ⟨hc, ht⟩ := ih a w h
      refine ⟨le_of_lt (lt_of_lt_of_le h1 hc), ?_⟩
      intro x hx
      rcases List.mem_cons.mp hx with rfl | hx
      · exact hc
      · exact ht x hx
    · simp only [if_neg h1] at h
      obtain ⟨hc, ht⟩ := ih c w h
      refine ⟨hc, ?_⟩
      intro x hx
      rcases List.mem_cons.mp hx with rfl | hx
      · exact le_trans (not_lt.mp h1) hc
      · exact ht x hx

/-- `pickFold` on the strictly-greater relation returns a member attaining
the maximal key. -/
lemma pickFold_max {α : Type} (key : α → ℤ) (l : List α) (w : α)
    (h : pickFold (fun y x => key y < key x) l = some w) :
    w ∈ l ∧ ∀ x ∈ l, key x ≤ key w := by
  rcases l with _ | ⟨a, t⟩
  · cases h
  · rw [pickFold, List.foldl_cons] at h
    obtain ⟨hc, ht⟩ := pickFold_max_go key t a w h
    constructor
    · have hne : (a :: t) ≠ [] := by simp
      obtain ⟨v, hv, hvm⟩ := pickFold_mem
        (fun y x => key y < key x) hne
      rw [pickFold, List.foldl_cons] at hv
      rw [hv] at h
      injection h with h1
      subst h1
      exact hvm
    · intro x hx
      rcases List.mem_cons.mp hx with rfl | hx
      · exact hc
      · exact ht x hx

/-- **C9.** `complete_tournament` fails on a missing tournament, a foreign
group, an already-completed tournament, missing winner data or missing stat
data, and every failure leaves the state untouched (so a second call on a
closed tournament preserves the stored winner and stats); on success the
stored and returned winner is a player attaining the maximal current
tournament rating, and the rating rows are unchanged. -/
theorem complete_tournament_correct (fail_tx : Bool) (db : TDB)
    (tid gid : ℕ) :
    (∀ db2 e, complete_tournament fail_tx db tid gid = (db2, .error e) →
      db2 = db) ∧
    (∀ t, db.tournaments.find? (fun x => x.id == tid) = some t →
      t.winner.isSome = true →
      ∃ e, complete_tournament fail_tx db tid gid = (db, .error e)) ∧
    (db.tournamentScores.filter (fun r => r.tournament_id == tid) = [] →
      ∃ e, complete_tournament fail_tx db tid gid = (db, .error e)) ∧
    (∀ db2 t, complete_tournament fail_tx db tid gid = (db2, .ok t) →
      ∃ w, t.winner = some w ∧
        (∃ r, r ∈ db.tournamentScores.filter
            (fun x => x.tournament_id == tid) ∧
          r.player_id = w ∧
          ∀ r2 ∈ db.tournamentScores.filter
              (fun x => x.tournament_id == tid),
            r2.elo_rating ≤ r.elo_rating) ∧
        db2.tournamentScores = db.tournamentScores ∧
        db2.tournaments = db.tournaments.map (fun x =>
          if x.id == tid then { x with winner := some w } else x)) := by
  refine ⟨?_, ?_, ?_, ?_⟩
  · intro db2 e h
    rw [complete_tournament] at h
    split at h
    · injection h with h1 h2
      exact h1.symm
    · split at h
      · injection h with h1 h2
        exact h1.symm
      · split at h
        · injection h with h1 h2
          exact h1.symm
        · split at h
          · injection h with h1 h2
            exact h1.symm
          · split at h
            · injection h with h1 h2
              exact h1.symm
            · split at h
              · injection h with h1 h2
                exact h1.symm
              · injection h with h1 h2
                exact absurd h2 (by simp)
  · intro t hfind hwin
    rw [complete_tournament, hfind]
    simp only []
    by_cases hg : t.group_id ≠ gid
    · rw [if_pos hg]
      exact ⟨_, rfl⟩
    · rw [if_neg hg, if_pos hwin]
      exact ⟨_, rfl⟩
  · intro hempty
    rw [complete_tournament]
    rcases hfind : db.tournaments.find? (fun t => t.id == tid) with _ | t
    · rw [hfind]
      exact ⟨_, rfl⟩
    · rw [hfind]
      simp only []
      by_cases hg : t.group_id ≠ gid
      · rw [if_pos hg]
        exact ⟨_, rfl⟩
      · rw [if_neg hg]
        by_cases hw : t.winner.isSome = true
        · rw [if_pos hw]
          exact ⟨_, rfl⟩
        · rw [if_neg hw]
          by_cases hf : fail_tx = true
          · rw [if_pos hf]
            exact ⟨_, rfl⟩
          · rw [if_neg hf]
            have hcw : calculate_winner db.tournamentScores tid
                = .error "No players in tournament" := by
              rw [calculate_winner, hempty]
              rfl
            rw [hcw]
            exact ⟨_, rfl⟩
  · intro db2 t h
    rw [complete_tournament] at h
    split at h
    · injection h with h1 h2
      exact absurd h2 (by simp)
    · rename_i tournament hfind
      split at h
      · injection h with h1 h2
        exact absurd h2 (by simp)
      · split at h
        · injection h with h1 h2
          exact absurd h2 (by simp)
        · split at h
          · injection h with h1 h2
            exact absurd h2 (by simp)
          · split at h
            · injection h with h1 h2
              exact absurd h2 (by simp)
            · rename_i winner_id hcw
              split at h
              · injection h with h1 h2
                exact absurd h2 (by simp)
              · injection h with h1 h2
                injection h2 with h3
                rw [calculate_winner] at hcw
                split at hcw
                · cases hcw
                · rename_i r hpick
                  injection hcw with hcw1
                  obtain ⟨hmem, hmax⟩ := pickFold_max
                    (fun x : TournamentScoreRow => x.elo_rating)
                    (db.tournamentScores.filter
                      (fun r => r.tournament_id == tid)) r hpick
                  refine ⟨winner_id, ?_, ⟨r, hmem, hcw1, hmax⟩, ?_, ?_⟩
                  · rw [← h3]
                  · rw [← h1]
                  · rw [← h1]

/-- A concrete closed tournament for the witness. -/
def dbC9 : TDB :=
  { tournaments := [⟨7, 5, some 1⟩], tournamentScores := [],
    raceScores := [], contribs := [], matchScores := [], matchRows := [],
    stats := [] }

/-- Witness for `complete_tournament_correct`: a second completion call on
an already-closed tournament fails with the state untouched. -/
theorem complete_tournament_correct_witness :
    ∃ e, complete_tournament false dbC9 7 5 = (dbC9, .error e) :=
  (complete_tournament_correct false dbC9 7 5).2.1 ⟨7, 5, some 1⟩
    (by decide) (by decide)

end MarioKart
